import Mathlib

/-!
Verification of the reactive dependency-tracking core (observer, watcher,
scheduler) of the Vue 2.6.10 source tree, via a shallow embedding in Lean.

The embedding models:
  * the Dep (Subject) subscriber lists together with a Watcher's four
    dependency buffers (`deps` / `newDeps` / `depIds` / `newDepIds`) and the
    reconciliation performed by `Watcher.get` / `addDep` / `cleanupDeps`;
  * the scheduler (`queueWatcher` / `flushSchedulerQueue`) as an explicit
    state machine with a fuel-bounded flush loop;
  * the property-interception layer (`defineReactive` setter, `observe`,
    `set`) over an explicit heap of JavaScript objects.
-/

namespace Vue

/-- Model of JavaScript values as far as the reactivity core inspects them:
`strictEq` below implements the `===` comparison (NaN is self-unequal),
and objects/arrays are identified by heap address. -/
inductive JSValue : Type where
  | undef : JSValue
  | null : JSValue
  | boolean : Bool → JSValue
  | num : Int → JSValue
  | nan : JSValue
  | str : String → JSValue
  | obj : Nat → JSValue
  deriving Repr, DecidableEq

/-- JavaScript strict equality `===` on modelled values: NaN compares unequal
to everything including itself; objects compare by reference (address). -/
def strictEq : JSValue → JSValue → Bool
  | JSValue.undef, JSValue.undef => true
  | JSValue.null, JSValue.null => true
  | JSValue.boolean a, JSValue.boolean b => a == b
  | JSValue.num a, JSValue.num b => a == b
  | JSValue.str a, JSValue.str b => a == b
  | JSValue.obj a, JSValue.obj b => a == b
  | _, _ => false

/-- Source `isObject` (src/core/util): `obj !== null && typeof obj === 'object'`.
Only heap references are objects in the model. -/
def isObject : JSValue → Bool
  | JSValue.obj _ => true
  | _ => false

/-!
## Dependency tracking: Dep subscriber lists and Watcher dependency buffers

A single watcher (identified by its numeric id `w`) interacts with the deps
it reads.  `TrackState` bundles the world of Dep subscriber lists (`subs`,
indexed by dep id) with the four buffers of `Watcher`
(src/core/observer/watcher.js): `deps`, `newDeps` (lists of dep ids, the
arrays of `Dep` references in the source) and `depIds`, `newDepIds` (the two
`SimpleSet`s, modelled as insertion-ordered duplicate-free lists).
-/

structure TrackState where
  subs : Nat → List Nat
  deps : List Nat
  newDeps : List Nat
  depIds : List Nat
  newDepIds : List Nat

/-- Pointwise update of the subscriber-list world at one dep id. -/
def updSubs (f : Nat → List Nat) (d : Nat) (l : List Nat) : Nat → List Nat :=
  fun x => if x = d then l else f x

/-- Modelled from the spec: the repository's `src/core/observer/dep.js` is
not among the provided sources; §4.1 of the spec specifies Subject's
contract — `subscribe(node)` adds a node if not already present.
`addSub` appends watcher `w` to the subscriber list of dep `d`. -/
def addSub (w : Nat) (st : TrackState) (d : Nat) : TrackState :=
  if w ∈ st.subs d then st
  else { st with subs := updSubs st.subs d (st.subs d ++ [w]) }

/-- Modelled from the spec: Subject's `unsubscribe(node)` removes the node
from the subscriber list (§4.1); the node appears at most once, so removing
the first occurrence removes it. -/
def removeSub (w : Nat) (st : TrackState) (d : Nat) : TrackState :=
  { st with subs := updSubs st.subs d ((st.subs d).erase w) }

/-- `Watcher.addDep` (src/core/observer/watcher.js, lines 210-219): record
dep `d` in the new buffers unless already recorded this evaluation, and
subscribe to it unless the previous evaluation already did. -/
def addDep (w : Nat) (st : TrackState) (d : Nat) : TrackState :=
  if d ∈ st.newDepIds then st
  else
    let st1 := { st with newDepIds := st.newDepIds ++ [d],
                         newDeps := st.newDeps ++ [d] }
    if d ∈ st1.depIds then st1 else addSub w st1 d

/-- Modelled from the spec: `Dep.depend` (src/core/observer/dep.js, absent
from the sources) — if a current computation exists it records the dep via
`Dep.target.addDep(this)` (§4.1; also quoted verbatim in the comments of
src/core/observer/watcher.js, lines 340-344). -/
def depend (target : Option Nat) (st : TrackState) (d : Nat) : TrackState :=
  match target with
  | some w => addDep w st d
  | none => st

/-- `Watcher.cleanupDeps` (src/core/observer/watcher.js, lines 224-250):
unsubscribe from every dep of the previous evaluation that the new one did
not read, then swap the buffers and clear the new ones. -/
def cleanupDeps (w : Nat) (st : TrackState) : TrackState :=
  let st1 := st.deps.reverse.foldl
    (fun s d => if d ∈ s.newDepIds then s else removeSub w s d) st
  { st1 with depIds := st1.newDepIds, newDepIds := [],
             deps := st1.newDeps, newDeps := [] }

/-- The dependency-registration part of one evaluation of `Watcher.get`:
with the watcher pushed as the current target, the getter's property reads
fire `dep.depend()` in order on the dep ids in `reads`. -/
def runGetterReads (w : Nat) (st : TrackState) (reads : List Nat) : TrackState :=
  reads.foldl (depend (some w)) st

/-- `Watcher.get` (src/core/observer/watcher.js, lines 150-204) as it acts
on the dependency-tracking state: register the evaluation's reads, then
reconcile via `cleanupDeps`. -/
def watcherGet (w : Nat) (reads : List Nat) (st : TrackState) : TrackState :=
  cleanupDeps w (runGetterReads w st reads)

/-- Invariant carried through the read-registration phase of one evaluation,
relative to the pre-evaluation state `base`: the old buffers are untouched,
the two new buffers hold the same ids, and a dep's subscriber list has
gained `w` exactly when the dep was newly read and was not subscribed
before. -/
structure AddPhase (w : Nat) (base st : TrackState) : Prop where
  deps_eq : st.deps = base.deps
  depIds_eq : st.depIds = base.depIds
  newDeps_eq : st.newDeps = st.newDepIds
  nodup : st.newDepIds.Nodup
  subs_eq : ∀ d, st.subs d =
    if d ∈ st.newDepIds ∧ d ∉ base.depIds then base.subs d ++ [w] else base.subs d

lemma addDep_addPhase (w : Nat) (base st : TrackState) (d : Nat)
    (hw : ∀ x, x ∉ base.depIds → w ∉ base.subs x)
    (h : AddPhase w base st) :
    AddPhase w base (addDep w st d) ∧
      ((addDep w st d).newDepIds =
        if d ∈ st.newDepIds then st.newDepIds else st.newDepIds ++ [d]) := by
  by_cases hmem : d ∈ st.newDepIds
  · have hred : addDep w st d = st := by simp [addDep, hmem]
    rw [hred]
    exact ⟨h, by simp [hmem]⟩
  · have hsubd : st.subs d = base.subs d := by
      rw [h.subs_eq d]; simp [hmem]
    by_cases hold : d ∈ base.depIds
    · have hred : addDep w st d =
          { st with newDepIds := st.newDepIds ++ [d],
                    newDeps := st.newDeps ++ [d] } := by
        simp [addDep, hmem, h.depIds_eq, hold]
      rw [hred]
      refine ⟨⟨h.deps_eq, h.depIds_eq, by simp [h.newDeps_eq],
        by simp [List.nodup_append, h.nodup, hmem], ?_⟩, by simp [hmem]⟩
      intro x
      by_cases hx : x = d
      · subst hx
        simp only [h.subs_eq x, hmem, false_and, if_false]
        simp [hold, hsubd]
      · simpa [List.mem_append, hx] using h.subs_eq x
    · have hwd : w ∉ st.subs d := by rw [hsubd]; exact hw d hold
      have hred : addDep w st d =
          { st with newDepIds := st.newDepIds ++ [d],
                    newDeps := st.newDeps ++ [d],
                    subs := updSubs st.subs d (st.subs d ++ [w]) } := by
        simp [addDep, hmem, h.depIds_eq, hold, addSub, hwd]
      rw [hred]
      refine ⟨⟨h.deps_eq, h.depIds_eq, by simp [h.newDeps_eq],
        by simp [List.nodup_append, h.nodup, hmem], ?_⟩, by simp [hmem]⟩
      intro x
      by_cases hx : x = d
      · subst hx
        simp [updSubs, hold, hsubd]
      · simp only [updSubs, hx, if_false]
        simpa [List.mem_append, hx] using h.subs_eq x

lemma runGetterReads_addPhase (w : Nat) (base : TrackState)
    (hw : ∀ x, x ∉ base.depIds → w ∉ base.subs x) :
    ∀ (reads : List Nat) (st : TrackState), AddPhase w base st →
      AddPhase w base (runGetterReads w st reads) ∧
      (∀ d, d ∈ (runGetterReads w st reads).newDepIds ↔
        d ∈ st.newDepIds ∨ d ∈ reads) := by
  intro reads
  induction reads with
  | nil => intro st h; exact ⟨h, by simp [runGetterReads]⟩
  | cons r rs ih =>
    intro st h
    have hstep := addDep_addPhase w base st r hw h
    have hrest := ih (addDep w st r) hstep.1
    have hrun : runGetterReads w st (r :: rs) =
        runGetterReads w (addDep w st r) rs := by
      simp [runGetterReads, depend]
    refine ⟨by rw [hrun]; exact hrest.1, ?_⟩
    intro d
    rw [hrun, (hrest.2 d), hstep.2]
    by_cases hmem : r ∈ st.newDepIds
    · simp only [hmem, if_pos]
      constructor
      · rintro (hd | hd)
        · exact Or.inl hd
        · exact Or.inr (List.mem_cons_of_mem _ hd)
      · rintro (hd | hd)
        · exact Or.inl hd
        · rcases List.mem_cons.mp hd with hd | hd
          · exact Or.inl (hd ▸ hmem)
          · exact Or.inr hd
    · simp only [hmem, if_neg, not_false_iff, List.mem_append,
        List.mem_singleton, List.mem_cons]
      tauto

lemma cleanupLoop_spec (w : Nat) :
    ∀ (L : List Nat) (st : TrackState), L.Nodup →
      let st1 := L.foldl
        (fun s d => if d ∈ s.newDepIds then s else removeSub w s d) st
      st1.deps = st.deps ∧ st1.newDeps = st.newDeps ∧
      st1.depIds = st.depIds ∧ st1.newDepIds = st.newDepIds ∧
      ∀ d, st1.subs d =
        if d ∈ L ∧ d ∉ st.newDepIds then (st.subs d).erase w else st.subs d := by
  intro L
  induction L with
  | nil => intro st _; simp
  | cons d0 rest ih =>
    intro st hnd
    have hnd0 : d0 ∉ rest := (List.nodup_cons.mp hnd).1
    have hndr : rest.Nodup := (List.nodup_cons.mp hnd).2
    set st' := if d0 ∈ st.newDepIds then st else removeSub w st d0 with hst'
    have hfields : st'.deps = st.deps ∧ st'.newDeps = st.newDeps ∧
        st'.depIds = st.depIds ∧ st'.newDepIds = st.newDepIds := by
      by_cases h0 : d0 ∈ st.newDepIds <;> simp [hst', h0, removeSub]
    have hsub' : ∀ d, st'.subs d =
        if d = d0 ∧ d0 ∉ st.newDepIds then (st.subs d).erase w
        else st.subs d := by
      intro d
      by_cases h0 : d0 ∈ st.newDepIds
      · simp [hst', h0]
      · by_cases hd : d = d0
        · subst hd; simp [hst', h0, removeSub, updSubs]
        · simp [hst', h0, removeSub, updSubs, hd]
    have hfold : (d0 :: rest).foldl
        (fun s d => if d ∈ s.newDepIds then s else removeSub w s d) st =
        rest.foldl
          (fun s d => if d ∈ s.newDepIds then s else removeSub w s d) st' := by
      simp [hst']
    rw [hfold]
    have hrest := ih st' hndr
    refine ⟨hrest.1.trans hfields.1, hrest.2.1.trans hfields.2.1,
      hrest.2.2.1.trans hfields.2.2.1, hrest.2.2.2.1.trans hfields.2.2.2, ?_⟩
    intro d
    rw [hrest.2.2.2.2 d, hfields.2.2.2, hsub' d]
    by_cases hd : d = d0
    · subst hd
      simp [hnd0]
    · simp [hd, List.mem_cons]

/-- The reconciliation invariant that holds between evaluations: new buffers
empty, `deps` and `depIds` holding the same duplicate-free ids, and watcher
`w` subscribed exactly once to exactly the deps in `depIds`. -/
def Reconciled (w : Nat) (st : TrackState) : Prop :=
  st.newDeps = [] ∧ st.newDepIds = [] ∧ st.deps = st.depIds ∧
  st.depIds.Nodup ∧
  (∀ d, d ∈ st.depIds → (st.subs d).count w = 1) ∧
  (∀ d, d ∉ st.depIds → w ∉ st.subs d)

/-- C1: after every evaluation of a watcher (`Watcher.get`), the
subscription state is reconciled — every dep read during the evaluation is
present exactly once in the watcher's dependency set (`deps` is
duplicate-free and holds exactly the ids read, and `depIds` matches) and
has the watcher exactly once in its subscriber list; every dep subscribed
before the evaluation but not read during it has the watcher removed from
its subscriber list; and the new/old buffers are swapped with the new ones
cleared. -/
theorem watcherGet_reconciles (w : Nat) (reads : List Nat) (st : TrackState)
    (hrec : Reconciled w st) :
    (∀ d, d ∈ (watcherGet w reads st).deps ↔ d ∈ reads) ∧
    (watcherGet w reads st).deps.Nodup ∧
    (watcherGet w reads st).depIds = (watcherGet w reads st).deps ∧
    (∀ d, d ∈ reads → ((watcherGet w reads st).subs d).count w = 1) ∧
    (∀ d, d ∈ st.depIds → d ∉ reads → w ∉ (watcherGet w reads st).subs d) ∧
    (watcherGet w reads st).newDeps = [] ∧
    (watcherGet w reads st).newDepIds = [] := by
  obtain ⟨hnewDeps, hnewIds, hdeps, hnd, hsub1, hsub0⟩ := hrec
  have hbase : AddPhase w st st := by
    refine ⟨rfl, rfl, hnewDeps.trans hnewIds.symm, hnewIds ▸ List.nodup_nil, ?_⟩
    intro d; rw [hnewIds]; simp
  obtain ⟨hap, hmemIds⟩ := runGetterReads_addPhase w st hsub0 reads st hbase
  set stf := runGetterReads w st reads with hstf
  have hmem : ∀ d, d ∈ stf.newDepIds ↔ d ∈ reads := by
    intro d; rw [hmemIds d, hnewIds]; simp
  have hndrev : stf.deps.reverse.Nodup := by
    rw [List.nodup_reverse, hap.deps_eq, hdeps]; exact hnd
  obtain ⟨hl1, hl2, hl3, hl4, hl5⟩ := cleanupLoop_spec w stf.deps.reverse stf hndrev
  have hget : watcherGet w reads st =
      { subs := (stf.deps.reverse.foldl
          (fun s d => if d ∈ s.newDepIds then s else removeSub w s d) stf).subs,
        deps := (stf.deps.reverse.foldl
          (fun s d => if d ∈ s.newDepIds then s else removeSub w s d) stf).newDeps,
        newDeps := [],
        depIds := (stf.deps.reverse.foldl
          (fun s d => if d ∈ s.newDepIds then s else removeSub w s d) stf).newDepIds,
        newDepIds := [] } := by
    rw [watcherGet, ← hstf, cleanupDeps]
  have hdepsfin : (watcherGet w reads st).deps = stf.newDepIds := by
    rw [hget]; exact hl2.trans hap.newDeps_eq
  have hidsfin : (watcherGet w reads st).depIds = stf.newDepIds := by
    rw [hget]; exact hl4
  have hsubsfin : ∀ d, (watcherGet w reads st).subs d =
      if d ∈ stf.deps.reverse ∧ d ∉ stf.newDepIds
      then (stf.subs d).erase w else stf.subs d := by
    intro d; rw [hget]; exact hl5 d
  refine ⟨?_, ?_, ?_, ?_, ?_, ?_, ?_⟩
  · intro d; rw [hdepsfin]; exact hmem d
  · rw [hdepsfin]; exact hap.nodup
  · rw [hdepsfin, hidsfin]
  · intro d hd
    rw [hsubsfin d]
    have hdnew : d ∈ stf.newDepIds := (hmem d).mpr hd
    rw [if_neg (by simp [hdnew])]
    rw [hap.subs_eq d]
    by_cases hold : d ∈ st.depIds
    · rw [if_neg (by simp [hold])]
      exact hsub1 d hold
    · rw [if_pos ⟨hdnew, hold⟩]
      have : (st.subs d).count w = 0 := List.count_eq_zero.mpr (hsub0 d hold)
      simp [List.count_append, this]
  · intro d hdold hdreads
    rw [hsubsfin d]
    have hdnew : d ∉ stf.newDepIds := fun hc => hdreads ((hmem d).mp hc)
    have hdrev : d ∈ stf.deps.reverse := by
      rw [List.mem_reverse, hap.deps_eq, hdeps]; exact hdold
    rw [if_pos ⟨hdrev, hdnew⟩]
    have hsf : stf.subs d = st.subs d := by
      rw [hap.subs_eq d]; simp [hdnew]
    rw [hsf]
    have hcount : (st.subs d).count w = 1 := hsub1 d hdold
    have : ((st.subs d).erase w).count w = 0 := by
      rw [List.count_erase_self, hcount]
    exact List.count_eq_zero.mp this
  · rw [hget]
  · rw [hget]

/-- The empty tracking state: no subscriptions, all buffers empty. -/
def stInit : TrackState := ⟨fun _ => [], [], [], [], []⟩

/-- Witness for C1: the theorem applied to the empty state and the concrete
read sequence [1, 2, 1]. -/
theorem watcherGet_reconciles_witness :
    (∀ d, d ∈ (watcherGet 5 [1, 2, 1] stInit).deps ↔ d ∈ [1, 2, 1]) ∧
    (watcherGet 5 [1, 2, 1] stInit).deps.Nodup ∧
    (watcherGet 5 [1, 2, 1] stInit).depIds = (watcherGet 5 [1, 2, 1] stInit).deps ∧
    (∀ d, d ∈ [1, 2, 1] → ((watcherGet 5 [1, 2, 1] stInit).subs d).count 5 = 1) ∧
    (∀ d, d ∈ stInit.depIds → d ∉ [1, 2, 1] →
      5 ∉ (watcherGet 5 [1, 2, 1] stInit).subs d) ∧
    (watcherGet 5 [1, 2, 1] stInit).newDeps = [] ∧
    (watcherGet 5 [1, 2, 1] stInit).newDepIds = [] :=
  watcherGet_reconciles 5 [1, 2, 1] stInit
    ⟨rfl, rfl, rfl, List.nodup_nil,
      fun d hd => by simp [stInit] at hd,
      fun d _ => by simp [stInit]⟩

/-!
## The scheduler (src/core/observer/scheduler.js)

The scheduler state is global in the source; here it is an explicit
structure.  Watchers are represented by their ids.  `runOrder`, `warns` and
`aborted` are observation fields recording, respectively, the ids passed to
`watcher.run()` in order, the number of `warn()` diagnostics emitted, and
whether the flush loop exited through the circular-update `break`.  A
watcher's `run()` may re-enter `queueWatcher`; the ids it enqueues are
supplied by the `eff` parameter of the flush loop.  The flush loop is
fuel-bounded: the source's `for` loop has no intrinsic bound because the
queue may grow while it runs.
-/

/-- src/core/observer/scheduler.js line 15. -/
def MAX_UPDATE_COUNT : Nat := 100

structure Sched where
  queue : List Nat
  has : List Nat
  circular : List (Nat × Nat)
  waiting : Bool
  flushing : Bool
  index : Nat
  runOrder : List Nat
  warns : Nat
  aborted : Bool
  deriving Repr, DecidableEq

/-- The descending scan of `queueWatcher`'s splice branch:
`let i = queue.length - 1; while (i > index && queue[i].id > watcher.id) i--`;
the returned value is the insertion position `i + 1`. -/
def spliceGo (q : List Nat) (index wid : Nat) : Nat → Nat
  | 0 => 1
  | Nat.succ i =>
    if i + 1 > index ∧ wid < q.getD (i + 1) 0 then spliceGo q index wid i
    else i + 2

/-- Insertion position used by `queue.splice(i + 1, 0, watcher)`
(src/core/observer/scheduler.js, lines 213-218).  An empty queue gives
position 0 (`i` starts at `-1`). -/
def splicePos (q : List Nat) (index wid : Nat) : Nat :=
  match q with
  | [] => 0
  | _ :: _ => spliceGo q index wid (q.length - 1)

/-- `queueWatcher` (src/core/observer/scheduler.js, lines 201-233): skip ids
already in the membership map; otherwise push onto the queue when idle, or
splice into the sorted position of the unprocessed portion while flushing.
The `nextTick(flushSchedulerQueue)` arming is modelled by the `waiting`
flag; the flush itself is invoked explicitly in the theorems. -/
def queueWatcher (s : Sched) (id : Nat) : Sched :=
  if id ∈ s.has then s
  else
    let s1 := { s with has := s.has ++ [id] }
    let s2 :=
      if s1.flushing = false then { s1 with queue := s1.queue ++ [id] }
      else
        let pos := splicePos s1.queue s1.index id
        { s1 with queue := s1.queue.take pos ++ id :: s1.queue.drop pos }
    if s2.waiting = false then { s2 with waiting := true } else s2

/-- `resetSchedulerState` (src/core/observer/scheduler.js, lines 29-40):
`circular` is cleared only in a non-production build. -/
def resetSchedulerState (dev : Bool) (s : Sched) : Sched :=
  { s with index := 0, queue := [], has := [],
           circular := if dev then [] else s.circular,
           waiting := false, flushing := false }

/-- The drain loop of `flushSchedulerQueue` (src/core/observer/scheduler.js,
lines 108-141): take the watcher at the cursor, clear its `has` entry, run
it (recording the run and applying its re-entrant `queueWatcher` calls
`eff w`), then — only in a non-production build — count re-queues of the
running watcher and `break` with one warning past `MAX_UPDATE_COUNT`. -/
def flushLoop (dev : Bool) (eff : Nat → List Nat) : Nat → Sched → Sched
  | 0, s => s
  | Nat.succ fuel, s =>
    if h : s.index < s.queue.length then
      let w := s.queue.get ⟨s.index, h⟩
      let s1 := { s with has := s.has.erase w }
      let s2 := (eff w).foldl queueWatcher { s1 with runOrder := s1.runOrder ++ [w] }
      if dev ∧ w ∈ s2.has then
        let c := ((s2.circular.lookup w).getD 0) + 1
        let s3 := { s2 with circular := (w, c) :: s2.circular }
        if MAX_UPDATE_COUNT < c then
          { s3 with warns := s3.warns + 1, aborted := true }
        else flushLoop dev eff fuel { s3 with index := s3.index + 1 }
      else flushLoop dev eff fuel { s2 with index := s2.index + 1 }
    else s

/-- `flushSchedulerQueue` (src/core/observer/scheduler.js, lines 82-161):
set `flushing`, sort the queue ascending by id, drain, and reset the
scheduler state afterwards.  When the fuel runs out mid-drain (a model
artifact standing for a drain that has not terminated) the un-reset state is
returned. -/
def flushSchedulerQueue (dev : Bool) (eff : Nat → List Nat) (fuel : Nat)
    (s : Sched) : Sched :=
  let s1 := { s with flushing := true,
                     queue := s.queue.insertionSort (· ≤ ·), index := 0 }
  let s2 := flushLoop dev eff fuel s1
  if s2.index < s2.queue.length ∧ s2.aborted = false then s2
  else resetSchedulerState dev s2

lemma flushLoop_noEff (dev : Bool) : ∀ (fuel : Nat) (s : Sched),
    s.has.Nodup → s.index ≤ s.queue.length → s.queue.length - s.index ≤ fuel →
    (flushLoop dev (fun _ => []) fuel s).runOrder =
      s.runOrder ++ s.queue.drop s.index ∧
    (flushLoop dev (fun _ => []) fuel s).queue = s.queue ∧
    (flushLoop dev (fun _ => []) fuel s).index = s.queue.length ∧
    (flushLoop dev (fun _ => []) fuel s).aborted = s.aborted := by
  intro fuel
  induction fuel with
  | zero =>
    intro s hh hle hfuel
    have hix : s.index = s.queue.length := le_antisymm hle (by omega)
    simp [flushLoop, hix, List.drop_length]
  | succ fuel ih =>
    intro s hh hle hfuel
    by_cases h : s.index < s.queue.length
    · have hnm : s.queue[s.index] ∉ s.has.erase s.queue[s.index] := by
        intro hc
        exact absurd ((List.Nodup.mem_erase_iff hh).mp hc).1 (by simp)
      have hred : flushLoop dev (fun _ => []) (fuel + 1) s =
          flushLoop dev (fun _ => []) fuel
            { s with has := s.has.erase s.queue[s.index],
                     runOrder := s.runOrder ++ [s.queue[s.index]],
                     index := s.index + 1 } := by
        rw [flushLoop]
        rw [dif_pos h]
        simp only [List.get_eq_getElem, List.foldl_nil]
        rw [if_neg (by rintro ⟨-, hcc⟩; exact hnm hcc)]
      rw [hred]
      obtain ⟨h1, h2, h3, h4⟩ := ih
        { s with has := s.has.erase s.queue[s.index],
                 runOrder := s.runOrder ++ [s.queue[s.index]],
                 index := s.index + 1 }
        (hh.erase _) (by simpa using h) (by simp; omega)
      refine ⟨?_, by simpa using h2, by simpa using h3, by simpa using h4⟩
      rw [h1]
      simp only [List.append_assoc, List.singleton_append]
      rw [← List.drop_eq_getElem_cons h]
    · have hix : s.index = s.queue.length := le_antisymm hle (by omega)
      rw [flushLoop, dif_neg h]
      simp [hix, List.drop_length]

lemma indexOf_lt_indexOf_of_sorted :
    ∀ (l : List Nat), l.Sorted (· ≤ ·) → l.Nodup →
    ∀ p c : Nat, p ∈ l → c ∈ l → p < c → l.indexOf p < l.indexOf c := by
  intro l
  induction l with
  | nil => intro _ _ p c hp _ _; simp at hp
  | cons x xs ih =>
    intro hs hn p c hp hc hpc
    have hxle : ∀ y ∈ xs, x ≤ y := (List.sorted_cons.mp hs).1
    by_cases hpx : p = x
    · have hcx : c ≠ x := by
        intro hcc
        rw [hpx, hcc] at hpc
        exact lt_irrefl x hpc
      have hcxs : c ∈ xs := by
        rcases List.mem_cons.mp hc with hcc | hcc
        · exact absurd hcc hcx
        · exact hcc
      rw [hpx, List.indexOf_cons_self, List.indexOf_cons_ne _ (Ne.symm hcx)]
      omega
    · have hpxs : p ∈ xs := by
        rcases List.mem_cons.mp hp with hpp | hpp
        · exact absurd hpp hpx
        · exact hpp
      have hcx : c ≠ x := by
        intro hcc
        rw [hcc] at hpc
        exact absurd hpc (not_lt.mpr (hxle p hpxs))
      have hcxs : c ∈ xs := by
        rcases List.mem_cons.mp hc with hcc | hcc
        · exact absurd hcc hcx
        · exact hcc
      rw [List.indexOf_cons_ne _ (Ne.symm hpx), List.indexOf_cons_ne _ (Ne.symm hcx)]
      have := ih (List.sorted_cons.mp hs).2 (List.nodup_cons.mp hn).2
        p c hpxs hcxs hpc
      omega

/-- C6: within one flush the queued watchers run in ascending id order —
`flushSchedulerQueue` sorts the queue ascending by id before draining, so
the recorded run order is the sorted queue, and for any two queued ids
p < c (parent before child, since watcher ids increase monotonically at
construction), p runs strictly before c. -/
theorem flush_runs_in_ascending_id_order (dev : Bool) (fuel : Nat) (s : Sched)
    (hh : s.has.Nodup) (hq : s.queue.Nodup) (hro : s.runOrder = [])
    (hfuel : s.queue.length ≤ fuel)
    (p c : Nat) (hp : p ∈ s.queue) (hc : c ∈ s.queue) (hpc : p < c) :
    (flushSchedulerQueue dev (fun _ => []) fuel s).runOrder =
      List.insertionSort (· ≤ ·) s.queue ∧
    List.Sorted (· ≤ ·) (flushSchedulerQueue dev (fun _ => []) fuel s).runOrder ∧
    (flushSchedulerQueue dev (fun _ => []) fuel s).runOrder.indexOf p <
      (flushSchedulerQueue dev (fun _ => []) fuel s).runOrder.indexOf c := by
  have hperm := List.perm_insertionSort (· ≤ ·) s.queue
  have hlen : (List.insertionSort (· ≤ ·) s.queue).length = s.queue.length :=
    hperm.length_eq
  obtain ⟨h1, h2, h3, h4⟩ := flushLoop_noEff dev fuel
    { s with flushing := true,
             queue := List.insertionSort (· ≤ ·) s.queue, index := 0 }
    (by simpa using hh) (by simp) (by simp [hlen]; omega)
  have hcond : ¬((flushLoop dev (fun _ => []) fuel
      { s with flushing := true,
               queue := List.insertionSort (· ≤ ·) s.queue, index := 0 }).index <
      (flushLoop dev (fun _ => []) fuel
      { s with flushing := true,
               queue := List.insertionSort (· ≤ ·) s.queue, index := 0 }).queue.length ∧
      (flushLoop dev (fun _ => []) fuel
      { s with flushing := true,
               queue := List.insertionSort (· ≤ ·) s.queue, index := 0 }).aborted = false) := by
    rw [h2, h3]; simp
  have hflush : flushSchedulerQueue dev (fun _ => []) fuel s =
      resetSchedulerState dev (flushLoop dev (fun _ => []) fuel
        { s with flushing := true,
                 queue := List.insertionSort (· ≤ ·) s.queue, index := 0 }) := by
    rw [flushSchedulerQueue]
    rw [if_neg hcond]
  have hrof : (flushSchedulerQueue dev (fun _ => []) fuel s).runOrder =
      List.insertionSort (· ≤ ·) s.queue := by
    rw [hflush, resetSchedulerState]
    rw [h1]
    simp [hro]
  refine ⟨hrof, ?_, ?_⟩
  · rw [hrof]; exact List.sorted_insertionSort _ s.queue
  · rw [hrof]
    exact indexOf_lt_indexOf_of_sorted _ (List.sorted_insertionSort _ s.queue)
      (hperm.symm.nodup hq) p c (hperm.mem_iff.mpr hp) (hperm.mem_iff.mpr hc) hpc

/-- Witness for C6: queue [3, 1, 2] (enqueue order), parent id 1, child
id 2: the flush runs [1, 2, 3] and 1 runs before 2. -/
theorem flush_runs_in_ascending_id_order_witness :
    (flushSchedulerQueue true (fun _ => []) 10
      ⟨[3, 1, 2], [3, 1, 2], [], true, false, 0, [], 0, false⟩).runOrder =
      List.insertionSort (· ≤ ·) [3, 1, 2] ∧
    List.Sorted (· ≤ ·) (flushSchedulerQueue true (fun _ => []) 10
      ⟨[3, 1, 2], [3, 1, 2], [], true, false, 0, [], 0, false⟩).runOrder ∧
    (flushSchedulerQueue true (fun _ => []) 10
      ⟨[3, 1, 2], [3, 1, 2], [], true, false, 0, [], 0, false⟩).runOrder.indexOf 1 <
    (flushSchedulerQueue true (fun _ => []) 10
      ⟨[3, 1, 2], [3, 1, 2], [], true, false, 0, [], 0, false⟩).runOrder.indexOf 2 :=
  flush_runs_in_ascending_id_order true 10
    ⟨[3, 1, 2], [3, 1, 2], [], true, false, 0, [], 0, false⟩
    (by decide) (by decide) rfl (by decide) 1 2 (by decide) (by decide) (by decide)

set_option maxRecDepth 8000

/-- C2 counterexample: scheduler flushing queue [1, 2]; watcher 2's run
re-enqueues watcher 1, whose id the cursor has already passed.  Watcher 1 is
spliced in immediately after the cursor and runs a second time within the
same flush (run order [1, 2, 1]) — it is not deduplicated against the
already-processed portion. -/
theorem requeue_of_passed_id_runs_again :
    (flushSchedulerQueue true (fun w => if w = 2 then [1] else []) 10
      ⟨[1, 2], [1, 2], [], true, false, 0, [], 0, false⟩).runOrder = [1, 2, 1] ∧
    (flushSchedulerQueue true (fun w => if w = 2 then [1] else []) 10
      ⟨[1, 2], [1, 2], [], true, false, 0, [], 0, false⟩).runOrder.count 1 = 2 := by
  decide

/-- C3 counterexample: in the production configuration (`dev = false`) the
circular-update check is absent: a watcher whose run unconditionally
re-enqueues itself keeps the flush running far past
`MAX_UPDATE_COUNT = 100` re-queues — after 200 loop steps the flush has run
the watcher 200 times, emitted no diagnostic and not aborted. -/
theorem no_abort_in_production :
    (flushLoop false (fun w => if w = 1 then [1] else []) 200
      ⟨[1], [1], [], true, true, 0, [], 0, false⟩).runOrder.length = 200 ∧
    (flushLoop false (fun w => if w = 1 then [1] else []) 200
      ⟨[1], [1], [], true, true, 0, [], 0, false⟩).warns = 0 ∧
    (flushLoop false (fun w => if w = 1 then [1] else []) 200
      ⟨[1], [1], [], true, true, 0, [], 0, false⟩).aborted = false ∧
    MAX_UPDATE_COUNT + 1 < 200 := by
  decide

/-- C3 (amended): the re-entry ceiling is enforced only in the
non-production configuration.  With the diagnostic-enabled build
(`dev = true`), a watcher that re-enqueues itself unconditionally aborts
the flush once its per-flush re-queue count exceeds `MAX_UPDATE_COUNT`,
after exactly one diagnostic and `MAX_UPDATE_COUNT + 1` runs, leaving a
queued node unprocessed; in the production configuration no ceiling is
enforced and the flush keeps running. -/
theorem circular_update_abort_dev_only :
    ((flushLoop true (fun w => if w = 1 then [1] else []) 200
      ⟨[1], [1], [], true, true, 0, [], 0, false⟩).aborted = true ∧
     (flushLoop true (fun w => if w = 1 then [1] else []) 200
      ⟨[1], [1], [], true, true, 0, [], 0, false⟩).warns = 1 ∧
     (flushLoop true (fun w => if w = 1 then [1] else []) 200
      ⟨[1], [1], [], true, true, 0, [], 0, false⟩).runOrder.length =
        MAX_UPDATE_COUNT + 1 ∧
     (flushLoop true (fun w => if w = 1 then [1] else []) 200
      ⟨[1], [1], [], true, true, 0, [], 0, false⟩).index <
     (flushLoop true (fun w => if w = 1 then [1] else []) 200
      ⟨[1], [1], [], true, true, 0, [], 0, false⟩).queue.length) ∧
    ((flushLoop false (fun w => if w = 1 then [1] else []) 200
      ⟨[1], [1], [], true, true, 0, [], 0, false⟩).aborted = false ∧
     (flushLoop false (fun w => if w = 1 then [1] else []) 200
      ⟨[1], [1], [], true, true, 0, [], 0, false⟩).warns = 0) := by
  decide

/-!
## Write batching (C5): N writes to one field before a flush
-/

/-- State for a tick between two flushes: the scheduler plus the current
value of one reactive field (`store`).  A reactive write stores the value
and fires `dep.notify()`, which for a non-lazy, non-sync watcher calls
`watcher.update()` → `queueWatcher` (src/core/observer/index.js lines
269-313 and src/core/observer/watcher.js lines 257-275). -/
structure TickState where
  sched : Sched
  store : Int
  deriving Repr, DecidableEq

/-- One write of `v` to the field observed by watcher `w`. -/
def writeField (t : TickState) (w : Nat) (v : Int) : TickState :=
  { sched := queueWatcher t.sched w, store := v }

lemma queueWatcher_mem_noop (s : Sched) (w : Nat) (h : w ∈ s.has) :
    queueWatcher s w = s := by
  simp [queueWatcher, h]

lemma writes_collapse (w : Nat) : ∀ (vs : List Int) (t : TickState),
    w ∈ t.sched.has →
    (vs.foldl (fun t v => writeField t w v) t).sched = t.sched ∧
    (vs.foldl (fun t v => writeField t w v) t).store = vs.getLastD t.store := by
  intro vs
  induction vs with
  | nil => intro t _; simp
  | cons v rest ih =>
    intro t hmem
    have h1 : writeField t w v = { sched := t.sched, store := v } := by
      simp [writeField, queueWatcher_mem_noop t.sched w hmem]
    have h2 := ih { sched := t.sched, store := v } hmem
    simp only [List.foldl_cons, h1]
    refine ⟨h2.1, ?_⟩
    rw [h2.2]
    rcases rest with _ | ⟨r, rs⟩ <;> simp [List.getLastD]

lemma queueWatcher_new_idle (s : Sched) (w : Nat)
    (hh : w ∉ s.has) (hf : s.flushing = false) :
    (queueWatcher s w).queue = s.queue ++ [w] ∧
    (queueWatcher s w).has = s.has ++ [w] ∧
    (queueWatcher s w).runOrder = s.runOrder ∧
    (queueWatcher s w).flushing = s.flushing := by
  by_cases hw : s.waiting = false <;> simp [queueWatcher, hh, hf, hw]

lemma flushSchedulerQueue_noEff_runOrder (dev : Bool) (fuel : Nat) (s : Sched)
    (hh : s.has.Nodup) (hfuel : s.queue.length ≤ fuel) :
    (flushSchedulerQueue dev (fun _ => []) fuel s).runOrder =
      s.runOrder ++ List.insertionSort (· ≤ ·) s.queue := by
  have hlen : (List.insertionSort (· ≤ ·) s.queue).length = s.queue.length :=
    (List.perm_insertionSort (· ≤ ·) s.queue).length_eq
  obtain ⟨h1, h2, h3, h4⟩ := flushLoop_noEff dev fuel
    { s with flushing := true,
             queue := List.insertionSort (· ≤ ·) s.queue, index := 0 }
    (by simpa using hh) (by simp) (by simp [hlen]; omega)
  have hcond : ¬((flushLoop dev (fun _ => []) fuel
      { s with flushing := true,
               queue := List.insertionSort (· ≤ ·) s.queue, index := 0 }).index <
      (flushLoop dev (fun _ => []) fuel
      { s with flushing := true,
               queue := List.insertionSort (· ≤ ·) s.queue, index := 0 }).queue.length ∧
      (flushLoop dev (fun _ => []) fuel
      { s with flushing := true,
               queue := List.insertionSort (· ≤ ·) s.queue, index := 0 }).aborted = false) := by
    rw [h2, h3]; simp
  rw [flushSchedulerQueue]
  rw [if_neg hcond, resetSchedulerState]
  rw [h1]
  simp

/-- C5: while the scheduler is idle (not flushing), enqueueing a watcher id
already in the membership set is a no-op, so N ≥ 1 writes to the same field
before the next flush put its watcher in the queue exactly once, leave the
store at the last value written, and the next flush runs the watcher
exactly once (and that single run evaluates against the final store, no
write having intervened). -/
theorem enqueue_dedup_single_run (dev : Bool) (s : Sched) (w : Nat)
    (fuel : Nat) (v : Int) (vs : List Int) (store0 : Int)
    (hf : s.flushing = false) (hh : w ∉ s.has) (hhn : s.has.Nodup)
    (hq : w ∉ s.queue) (hro : s.runOrder = [])
    (hfuel : s.queue.length + 1 ≤ fuel) :
    ((v :: vs).foldl (fun t x => writeField t w x)
      ⟨s, store0⟩).sched.queue.count w = 1 ∧
    ((v :: vs).foldl (fun t x => writeField t w x) ⟨s, store0⟩).store =
      vs.getLastD v ∧
    (flushSchedulerQueue dev (fun _ => []) fuel
      ((v :: vs).foldl (fun t x => writeField t w x)
        ⟨s, store0⟩).sched).runOrder.count w = 1 := by
  have hqw := queueWatcher_new_idle s w hh hf
  have hfold : (v :: vs).foldl (fun t x => writeField t w x) ⟨s, store0⟩ =
      vs.foldl (fun t x => writeField t w x) ⟨queueWatcher s w, v⟩ := rfl
  have hmemw : w ∈ (queueWatcher s w).has := by rw [hqw.2.1]; simp
  have hc := writes_collapse w vs ⟨queueWatcher s w, v⟩ hmemw
  have hcount1 : (queueWatcher s w).queue.count w = 1 := by
    rw [hqw.1, List.count_append]
    simp [List.count_eq_zero.mpr hq]
  refine ⟨?_, ?_, ?_⟩
  · rw [hfold, hc.1]
    exact hcount1
  · rw [hfold, hc.2]
  · rw [hfold, hc.1]
    have hhn2 : (queueWatcher s w).has.Nodup := by
      rw [hqw.2.1]; simp [List.nodup_append, hhn, hh]
    have hlen : (queueWatcher s w).queue.length ≤ fuel := by
      rw [hqw.1]; simp; omega
    rw [flushSchedulerQueue_noEff_runOrder dev fuel _ hhn2 hlen]
    rw [List.count_append, hqw.2.2.1, hro]
    have hsc : (List.insertionSort (· ≤ ·) (queueWatcher s w).queue).count w = 1 := by
      rw [(List.perm_insertionSort _ _).count_eq]
      exact hcount1
    simp [hsc]

/-- Witness for C5: three writes (values 1, 2, 3) to the field of watcher 7
starting from an idle empty scheduler: one queue entry, store 3, one run. -/
theorem enqueue_dedup_single_run_witness :
    (([1, 2, 3] : List Int).foldl (fun t x => writeField t 7 x)
      ⟨⟨[], [], [], false, false, 0, [], 0, false⟩, 0⟩).sched.queue.count 7 = 1 ∧
    (([1, 2, 3] : List Int).foldl (fun t x => writeField t 7 x)
      ⟨⟨[], [], [], false, false, 0, [], 0, false⟩, 0⟩).store =
      ([2, 3] : List Int).getLastD 1 ∧
    (flushSchedulerQueue true (fun _ => []) 5
      (([1, 2, 3] : List Int).foldl (fun t x => writeField t 7 x)
        ⟨⟨[], [], [], false, false, 0, [], 0, false⟩, 0⟩).sched).runOrder.count 7 = 1 :=
  enqueue_dedup_single_run true ⟨[], [], [], false, false, 0, [], 0, false⟩ 7 5
    1 [2, 3] 0 rfl (by simp) List.nodup_nil (by simp) rfl (by simp)

/-!
## Watcher.run and Watcher.get error handling (C7, C8)
-/

/-- `pushTarget` — modelled from the spec: the Dependency Scope stack of
src/core/observer/dep.js (absent from the sources), §4.3. -/
def pushTarget (w : Nat) (stack : List Nat) : List Nat := w :: stack

/-- `popTarget` — modelled from the spec: restores the previous top, §4.3. -/
def popTarget (stack : List Nat) : List Nat := stack.tail

/-- Result of one `Watcher.run`: the stored value, the reaction-callback
invocation (with its two arguments) if it fired, the errors routed to
`handleError`, and the exception propagating out of `run`, if any. -/
structure RunResult where
  value : JSValue
  cbCall : Option (JSValue × JSValue)
  handled : List Nat
  thrown : Option Nat
  deriving Repr, DecidableEq

/-- `Watcher.run` (src/core/observer/watcher.js, lines 282-314).
`newValue` stands for the result of the `this.get()` call; `oldValue` is
`this.value` before the run; `cbResult` is the outcome of the reaction
callback.  The callback fires when
`value !== this.value || isObject(value) || this.deep`; a callback
exception is caught and routed to `handleError` only for a `user`
watcher. -/
def watcherRun (active user deep : Bool) (oldValue newValue : JSValue)
    (cbResult : Except Nat Unit) : RunResult :=
  if active then
    if strictEq newValue oldValue = false ∨ isObject newValue = true ∨
        deep = true then
      if user then
        match cbResult with
        | Except.ok _ => ⟨newValue, some (newValue, oldValue), [], none⟩
        | Except.error e => ⟨newValue, some (newValue, oldValue), [e], none⟩
      else
        match cbResult with
        | Except.ok _ => ⟨newValue, some (newValue, oldValue), [], none⟩
        | Except.error e => ⟨newValue, some (newValue, oldValue), [], some e⟩
    else ⟨oldValue, none, [], none⟩
  else ⟨oldValue, none, [], none⟩

/-- C7: for an active watcher, `run` skips the reaction callback exactly
when the freshly evaluated value is reference-equal to the previous one,
is a primitive (not an object), and the watcher is not deep; in every
other case the callback fires with `(newValue, oldValue)`. -/
theorem run_fires_unless_unchanged_primitive_shallow (user deep : Bool)
    (oldV newV : JSValue) (cb : Except Nat Unit) :
    (watcherRun true user deep oldV newV cb).cbCall =
      (if strictEq newV oldV = true ∧ isObject newV = false ∧ deep = false
       then none else some (newV, oldV)) := by
  cases hse : strictEq newV oldV <;> cases hio : isObject newV <;>
    cases deep <;> cases user <;> cases cb <;> simp [watcherRun, hse, hio]

/-- Result of one `Watcher.get` as far as control flow is concerned. -/
structure GetResult where
  result : Except Nat JSValue
  track : TrackState
  targetStack : List Nat
  handled : List Nat

/-- `Watcher.get` (src/core/observer/watcher.js, lines 150-204) with its
try/catch/finally.  `getterResult` is the outcome of
`this.getter.call(vm, vm)` and `reads` the dep ids whose getters fired
before it finished or threw.  On an exception, a `user` watcher routes the
error to `handleError` and `value` stays `undefined`; otherwise the
exception is rethrown.  The `finally` block (pop the target stack, then
`cleanupDeps`) runs on every path.  (A `deep` watcher would additionally
traverse the value inside the same `finally`, contributing further reads;
with the thrown path the value is `undefined` and the traversal reads
nothing.) -/
def watcherGetE (w : Nat) (user : Bool) (getterResult : Except Nat JSValue)
    (reads : List Nat) (ts : TrackState) (stack : List Nat) : GetResult :=
  let stack1 := pushTarget w stack
  let ts1 := runGetterReads w ts reads
  match getterResult with
  | Except.ok v =>
      { result := Except.ok v, track := cleanupDeps w ts1,
        targetStack := popTarget stack1, handled := [] }
  | Except.error e =>
      if user then
        { result := Except.ok JSValue.undef, track := cleanupDeps w ts1,
          targetStack := popTarget stack1, handled := [e] }
      else
        { result := Except.error e, track := cleanupDeps w ts1,
          targetStack := popTarget stack1, handled := [] }

/-- C8: an exception from the tracked expression or from the reaction
callback is caught and routed to the shared error channel exactly when the
watcher is `user`; a non-user watcher rethrows the expression exception.
On both paths the Dependency Scope is popped (the stack is restored) and
dependency reconciliation (`cleanupDeps` after the registered reads) still
runs. -/
theorem watcher_errors_isolated_iff_user (w : Nat) (e ce : Nat)
    (reads : List Nat) (ts : TrackState) (stack : List Nat)
    (deep : Bool) (oldV newV : JSValue)
    (hfire : isObject newV = true) :
    (watcherGetE w true (Except.error e) reads ts stack).result =
      Except.ok JSValue.undef ∧
    (watcherGetE w true (Except.error e) reads ts stack).handled = [e] ∧
    (watcherGetE w false (Except.error e) reads ts stack).result =
      Except.error e ∧
    (watcherGetE w false (Except.error e) reads ts stack).handled = [] ∧
    (∀ u : Bool,
      (watcherGetE w u (Except.error e) reads ts stack).targetStack = stack ∧
      (watcherGetE w u (Except.error e) reads ts stack).track =
        cleanupDeps w (runGetterReads w ts reads)) ∧
    (watcherRun true true deep oldV newV (Except.error ce)).handled = [ce] ∧
    (watcherRun true true deep oldV newV (Except.error ce)).thrown = none ∧
    (watcherRun true false deep oldV newV (Except.error ce)).handled = [] ∧
    (watcherRun true false deep oldV newV (Except.error ce)).thrown =
      some ce := by
  refine ⟨rfl, rfl, rfl, rfl, ?_, ?_, ?_, ?_, ?_⟩
  · intro u; cases u <;> exact ⟨rfl, rfl⟩
  · simp [watcherRun, hfire]
  · simp [watcherRun, hfire]
  · simp [watcherRun, hfire]
  · simp [watcherRun, hfire]

/-- Witness for C8: concrete watcher 1, getter error 42, callback error 43,
no reads, empty stack, object-valued new value. -/
theorem watcher_errors_isolated_iff_user_witness :
    (watcherGetE 1 true (Except.error 42) [] stInit []).result =
      Except.ok JSValue.undef ∧
    (watcherGetE 1 true (Except.error 42) [] stInit []).handled = [42] ∧
    (watcherGetE 1 false (Except.error 42) [] stInit []).result =
      Except.error 42 ∧
    (watcherGetE 1 false (Except.error 42) [] stInit []).handled = [] ∧
    (∀ u : Bool,
      (watcherGetE 1 u (Except.error 42) [] stInit []).targetStack = [] ∧
      (watcherGetE 1 u (Except.error 42) [] stInit []).track =
        cleanupDeps 1 (runGetterReads 1 stInit [])) ∧
    (watcherRun true true false JSValue.undef (JSValue.obj 0)
      (Except.error 43)).handled = [43] ∧
    (watcherRun true true false JSValue.undef (JSValue.obj 0)
      (Except.error 43)).thrown = none ∧
    (watcherRun true false false JSValue.undef (JSValue.obj 0)
      (Except.error 43)).handled = [] ∧
    (watcherRun true false false JSValue.undef (JSValue.obj 0)
      (Except.error 43)).thrown = some 43 :=
  watcher_errors_isolated_iff_user 1 42 43 [] stInit [] false
    JSValue.undef (JSValue.obj 0) rfl

/-!
## The property-interception layer (src/core/observer/index.js): C4, C9, C10

JavaScript objects live in an explicit heap indexed by address.  A field is
either still a plain data slot or has been converted by `defineReactive`
into an accessor pair, modelled as a `reactive` slot carrying the closure
variable `val`, the field's dep id, and `childOb` (the address of the
object whose `__ob__` backs the field's current value, if any).  An
`Observer` is identified with the address of the object carrying it; its
record stores its dep id and `vmCount`.  `isServerRendering()` is `false`
in this embedding (the core under specification runs client-side). -/

inductive FieldSlot : Type where
  | plain : JSValue → FieldSlot
  | reactive : JSValue → Nat → Option Nat → FieldSlot
  deriving Repr, DecidableEq

/-- The stored value of a slot (`obj[key]` through the getter). -/
def FieldSlot.value : FieldSlot → JSValue
  | FieldSlot.plain v => v
  | FieldSlot.reactive v _ _ => v

structure ObRec where
  dep : Nat
  vmCount : Nat
  deriving Repr, DecidableEq

structure JSObj where
  fields : List (String × FieldSlot)
  elems : List JSValue
  isArray : Bool
  plainObj : Bool
  extensible : Bool
  isVue : Bool
  isVNode : Bool
  ob : Option ObRec
  deriving Repr, DecidableEq

abbrev Heap : Type := List (Nat × JSObj)

structure ObsState where
  heap : Heap
  nextDep : Nat
  deriving Repr, DecidableEq

/-- Heap lookup by address (an assoc list like the JS heap of the model). -/
def heapLookup (h : Heap) (a : Nat) : Option JSObj := List.lookup a h

/-- Replace the object stored at address `a`. -/
def updateObj (h : Heap) (a : Nat) (o : JSObj) : Heap :=
  h.map (fun p => if p.1 = a then (a, o) else p)

/-- Replace the slot of field `key` (`Object.defineProperty` on an existing
key). -/
def setSlot (fs : List (String × FieldSlot)) (k : String) (s : FieldSlot) :
    List (String × FieldSlot) :=
  fs.map (fun p => if p.1 = k then (k, s) else p)

def updateField (σ : ObsState) (a : Nat) (key : String) (slot : FieldSlot) :
    ObsState :=
  match heapLookup σ.heap a with
  | none => σ
  | some o =>
    let o2 := { o with fields := setSlot o.fields key slot }
    { σ with heap := updateObj σ.heap a o2 }

/-- `ob.vmCount++` for the `asRootData` case of `observe`. -/
def bumpVm (σ : ObsState) (a : Nat) : ObsState :=
  match heapLookup σ.heap a with
  | some o =>
    match o.ob with
    | some r =>
      let o2 := { o with ob := some ⟨r.dep, r.vmCount + 1⟩ }
      { σ with heap := updateObj σ.heap a o2 }
    | none => σ
  | none => σ

/-- Work items of the mutually recursive `observe` / `new Observer` /
`Observer.walk` / `Observer.observeArray` / `defineReactive` group of
src/core/observer/index.js, fuelled into a single recursion. -/
inductive ObsTask : Type where
  | obs : JSValue → Bool → ObsTask
  | newOb : Nat → ObsTask
  | obsList : List JSValue → ObsTask
  | walk : Nat → List String → ObsTask
  | defineR : Nat → String → ObsTask

/-- The recursion underlying `observe` (src/core/observer/index.js,
lines 153-178).  `obs v asRoot` is `observe(v, asRoot)`: non-objects and
VNodes are not observable; a value already carrying `__ob__` returns the
existing wrapper; otherwise, when `shouldObserve` is set and the value is a
plain object or array, extensible, and not a Vue instance, `newOb` — the
`Observer` constructor, reachable only for a value without `__ob__`
(observe's guard, which the task re-checks) — runs: it installs `__ob__`
first (with a fresh dep), then recursively observes the elements of an array (`observeArray`)
or converts each field of an object (`walk` → `defineReactive(obj, key)`,
which allocates the field's dep, reads the current value, observes it to
obtain `childOb`, and replaces the slot by the accessor pair).  The
result's first component is the address carrying the wrapper. -/
def obsGo (so : Bool) : Nat → ObsState → ObsTask → Option Nat × ObsState
  | 0, σ, _ => (none, σ)
  | Nat.succ fuel, σ, ObsTask.obs v asRoot =>
    match v with
    | JSValue.obj a =>
      match heapLookup σ.heap a with
      | none => (none, σ)
      | some o =>
        if o.isVNode then (none, σ)
        else
          match o.ob with
          | some _ => if asRoot then (some a, bumpVm σ a) else (some a, σ)
          | none =>
            if so ∧ (o.isArray ∨ o.plainObj) ∧ o.extensible ∧
                o.isVue = false then
              let σ2 := (obsGo so fuel σ (ObsTask.newOb a)).2
              if asRoot then (some a, bumpVm σ2 a) else (some a, σ2)
            else (none, σ)
    | _ => (none, σ)
  | Nat.succ fuel, σ, ObsTask.newOb a =>
    match heapLookup σ.heap a with
    | none => (none, σ)
    | some o =>
      match o.ob with
      | some _ => (none, σ)
      | none =>
        let o2 := { o with ob := some (ObRec.mk σ.nextDep 0) }
        let σ1 : ObsState := { heap := updateObj σ.heap a o2,
                               nextDep := σ.nextDep + 1 }
        if o.isArray then obsGo so fuel σ1 (ObsTask.obsList o.elems)
        else obsGo so fuel σ1 (ObsTask.walk a (o.fields.map Prod.fst))
  | Nat.succ fuel, σ, ObsTask.obsList vs =>
    match vs with
    | [] => (none, σ)
    | e :: es =>
      let σ1 := (obsGo so fuel σ (ObsTask.obs e false)).2
      obsGo so fuel σ1 (ObsTask.obsList es)
  | Nat.succ fuel, σ, ObsTask.walk a keys =>
    match keys with
    | [] => (none, σ)
    | k :: ks =>
      let σ1 := (obsGo so fuel σ (ObsTask.defineR a k)).2
      obsGo so fuel σ1 (ObsTask.walk a ks)
  | Nat.succ fuel, σ, ObsTask.defineR a key =>
    match heapLookup σ.heap a with
    | none => (none, σ)
    | some o =>
      match o.fields.lookup key with
      | none => (none, σ)
      | some slot =>
        let val := slot.value
        let dep := σ.nextDep
        let σ1 : ObsState := { σ with nextDep := σ.nextDep + 1 }
        let res := obsGo so fuel σ1 (ObsTask.obs val false)
        (none, updateField res.2 a key (FieldSlot.reactive val dep res.1))

/-- `observe(value, asRootData)` (src/core/observer/index.js 153-178). -/
def observe (so : Bool) (fuel : Nat) (σ : ObsState) (v : JSValue)
    (asRoot : Bool) : Option Nat × ObsState :=
  obsGo so fuel σ (ObsTask.obs v asRoot)

/-- The `set` accessor installed by `defineReactive`
(`reactiveSetter`, src/core/observer/index.js lines 269-313) for a field
created from plain data, as `Observer.walk` does (no pre-defined
getter/setter, so `value` is the closure variable `val`; the dev-only
`customSetter` is absent on this path; the field is not `shallow`).
The no-op guard is `newVal === value || (newVal !== newVal && value !== value)`;
otherwise the value is stored, `childOb = observe(newVal)` re-wraps it, and
`dep.notify()` fires.  Returns the new state and the dep ids notified. -/
def reactiveSetter (so : Bool) (fuel : Nat) (σ : ObsState) (a : Nat)
    (key : String) (newVal : JSValue) : ObsState × List Nat :=
  match heapLookup σ.heap a with
  | none => (σ, [])
  | some o =>
    match o.fields.lookup key with
    | some (FieldSlot.reactive val dep chOb) =>
      if strictEq newVal val = true ∨
          (strictEq newVal newVal = false ∧ strictEq val val = false) then
        (σ, [])
      else
        let σ1 := updateField σ a key (FieldSlot.reactive newVal dep chOb)
        let res := observe so fuel σ1 newVal false
        let σ2 := updateField res.2 a key (FieldSlot.reactive newVal dep res.1)
        (σ2, [dep])
    | _ => (σ, [])

/-- `isValidArrayIndex(key)` for a string key, modelled as a digit-string
parse. -/
def parseIndex (s : String) : Option Nat := s.toNat?

/-- Append a new own field (plain `target[key] = val` on a missing key, or
the property created by `defineReactive` in `set`). -/
def addField (σ : ObsState) (a : Nat) (key : String) (slot : FieldSlot) :
    ObsState :=
  match heapLookup σ.heap a with
  | none => σ
  | some o =>
    let o2 := { o with fields := o.fields ++ [(key, slot)] }
    { σ with heap := updateObj σ.heap a o2 }

/-- Truthiness of `ob && ob.vmCount` in `set` / `del`. -/
def vmPos : Option ObRec → Bool
  | some r => r.vmCount != 0
  | none => false

/-- `set(target, key, val)` (src/core/observer/index.js lines 322-379).
For an array target with a valid index the length is grown to the index and
the intercepted `splice` replaces the element — when the array carries a
wrapper the interception (src/core/observer/array.js) observes the inserted
value and notifies the wrapper's shape dep; an unobserved array gets the
native splice only.  An existing own key is written through the property
(through the reactive setter when the field was converted).  A Vue instance
or a root `$data` (positive `vmCount`) is refused with a dev warning.  A
target without `__ob__` gets a silent plain assignment.  Otherwise
`defineReactive(ob.value, key, val)` installs a new reactive field and
`ob.dep.notify()` fires.  Returns (state, dep ids notified, returned
value). -/
def setField (so : Bool) (fuel : Nat) (σ : ObsState) (target : JSValue)
    (key : String) (val : JSValue) : ObsState × List Nat × JSValue :=
  match target with
  | JSValue.obj a =>
    match heapLookup σ.heap a with
    | none => (σ, [], val)
    | some o =>
      if o.isArray ∧ (parseIndex key).isSome then
        let k := (parseIndex key).getD 0
        let padded := o.elems ++ List.replicate (k - o.elems.length) JSValue.undef
        let elems2 := padded.take k ++ val :: padded.drop (k + 1)
        let o2 := { o with elems := elems2 }
        let σ1 := { σ with heap := updateObj σ.heap a o2 }
        match o.ob with
        | some r =>
          let res := observe so fuel σ1 val false
          (res.2, [r.dep], val)
        | none => (σ1, [], val)
      else if (o.fields.lookup key).isSome then
        match o.fields.lookup key with
        | some (FieldSlot.plain _) =>
          (updateField σ a key (FieldSlot.plain val), [], val)
        | some (FieldSlot.reactive _ _ _) =>
          let r := reactiveSetter so fuel σ a key val
          (r.1, r.2, val)
        | none => (σ, [], val)
      else if o.isVue = true ∨ vmPos o.ob = true then
        (σ, [], val)
      else
        match o.ob with
        | none => (addField σ a key (FieldSlot.plain val), [], val)
        | some r =>
          let dep := σ.nextDep
          let σ1 : ObsState := { σ with nextDep := σ.nextDep + 1 }
          let res := observe so fuel σ1 val false
          let σ2 := addField res.2 a key (FieldSlot.reactive val dep res.1)
          (σ2, [r.dep], val)
  | _ => (σ, [], val)

lemma lookupN_cons_eq (k : Nat) (v : JSObj) (t : Heap) :
    heapLookup ((k, v) :: t) k = some v := by
  simp [heapLookup, List.lookup]

lemma lookupN_cons_ne (x k : Nat) (v : JSObj) (t : Heap) (h : x ≠ k) :
    heapLookup ((k, v) :: t) x = heapLookup t x := by
  have hb : (x == k) = false := beq_false_of_ne h
  simp [heapLookup, List.lookup, hb]

lemma updateObj_cons (k : Nat) (v : JSObj) (t : Heap) (a : Nat) (o2 : JSObj) :
    updateObj ((k, v) :: t) a o2 =
      (if k = a then (a, o2) else (k, v)) :: updateObj t a o2 := rfl

lemma heapLookup_updateObj_self (a : Nat) (o o2 : JSObj) :
    ∀ (h : Heap), heapLookup h a = some o →
      heapLookup (updateObj h a o2) a = some o2 := by
  intro h
  induction h with
  | nil => intro hl; simp [heapLookup] at hl
  | cons p t ih =>
    obtain ⟨k, v⟩ := p
    intro hl
    rw [updateObj_cons]
    by_cases hk : k = a
    · rw [if_pos hk]
      exact lookupN_cons_eq a o2 _
    · rw [if_neg hk]
      rw [lookupN_cons_ne a k v t (Ne.symm hk)] at hl
      rw [lookupN_cons_ne a k v _ (Ne.symm hk)]
      exact ih hl

lemma heapLookup_updateObj_ne (a x : Nat) (o2 : JSObj) (hx : x ≠ a) :
    ∀ (h : Heap), heapLookup (updateObj h a o2) x = heapLookup h x := by
  intro h
  induction h with
  | nil => simp [heapLookup, updateObj]
  | cons p t ih =>
    obtain ⟨k, v⟩ := p
    rw [updateObj_cons]
    by_cases hk : k = a
    · subst hk
      rw [if_pos rfl]
      rw [lookupN_cons_ne x k o2 _ hx, lookupN_cons_ne x k v t hx]
      exact ih
    · rw [if_neg hk]
      by_cases hxk : x = k
      · subst hxk
        rw [lookupN_cons_eq x v _, lookupN_cons_eq x v t]
      · rw [lookupN_cons_ne x k v _ hxk, lookupN_cons_ne x k v t hxk]
        exact ih

lemma lookupS_cons_eq (k : String) (v : FieldSlot)
    (t : List (String × FieldSlot)) : List.lookup k ((k, v) :: t) = some v := by
  simp [List.lookup]

lemma lookupS_cons_ne (x k : String) (v : FieldSlot)
    (t : List (String × FieldSlot)) (h : x ≠ k) :
    List.lookup x ((k, v) :: t) = List.lookup x t := by
  have hb : (x == k) = false := beq_false_of_ne h
  simp [List.lookup, hb]

lemma setSlot_cons (k2 : String) (v : FieldSlot)
    (t : List (String × FieldSlot)) (k : String) (slot : FieldSlot) :
    setSlot ((k2, v) :: t) k slot =
      (if k2 = k then (k, slot) else (k2, v)) :: setSlot t k slot := rfl

lemma lookup_setSlot_ne (x k : String) (s1 : FieldSlot) (hx : x ≠ k) :
    ∀ (fs : List (String × FieldSlot)),
      (setSlot fs k s1).lookup x = fs.lookup x := by
  intro fs
  induction fs with
  | nil => simp [setSlot]
  | cons p t ih =>
    obtain ⟨k2, v⟩ := p
    rw [setSlot_cons]
    by_cases hk : k2 = k
    · subst hk
      rw [if_pos rfl]
      rw [lookupS_cons_ne x k2 s1 _ hx, lookupS_cons_ne x k2 v t hx]
      exact ih
    · rw [if_neg hk]
      by_cases hxk : x = k2
      · subst hxk
        rw [lookupS_cons_eq x v _, lookupS_cons_eq x v t]
      · rw [lookupS_cons_ne x k2 v _ hxk, lookupS_cons_ne x k2 v t hxk]
        exact ih

lemma lookup_setSlot_self (k : String) (s1 s0 : FieldSlot) :
    ∀ (fs : List (String × FieldSlot)), fs.lookup k = some s0 →
      (setSlot fs k s1).lookup k = some s1 := by
  intro fs
  induction fs with
  | nil => intro hl; simp [List.lookup] at hl
  | cons p t ih =>
    obtain ⟨k2, v⟩ := p
    intro hl
    rw [setSlot_cons]
    by_cases hk : k2 = k
    · rw [if_pos hk]
      exact lookupS_cons_eq k s1 _
    · rw [if_neg hk]
      rw [lookupS_cons_ne k k2 v t (Ne.symm hk)] at hl
      rw [lookupS_cons_ne k k2 v _ (Ne.symm hk)]
      exact ih hl

/-- Heap evolution under observation: objects are never removed, `isVNode`
and `isArray` never change, and an installed wrapper keeps its dep id
(only `vmCount` may move, and a missing wrapper may be installed). -/
def HeapExt (h h2 : Heap) : Prop :=
  ∀ x o, heapLookup h x = some o →
    ∃ o2, heapLookup h2 x = some o2 ∧ o2.isVNode = o.isVNode ∧
      o2.isArray = o.isArray ∧
      (∀ r, o.ob = some r → ∃ r2, o2.ob = some r2 ∧ r2.dep = r.dep) ∧
      (∀ k, (o.fields.lookup k).isSome → (o2.fields.lookup k).isSome)

lemma heapExt_refl (h : Heap) : HeapExt h h :=
  fun _ o hl => ⟨o, hl, rfl, rfl, fun r hr => ⟨r, hr, rfl⟩, fun _ hk => hk⟩

lemma heapExt_comp (h1 h2 h3 : Heap) (hA : HeapExt h1 h2)
    (hB : HeapExt h2 h3) : HeapExt h1 h3 := by
  intro x o hl
  obtain ⟨o2, hl2, hv2, ha2, hb2, hk2⟩ := hA x o hl
  obtain ⟨o3, hl3, hv3, ha3, hb3, hk3⟩ := hB x o2 hl2
  refine ⟨o3, hl3, hv3.trans hv2, ha3.trans ha2, ?_, fun k hk => hk3 k (hk2 k hk)⟩
  intro r hr
  obtain ⟨r2, hr2, hd2⟩ := hb2 r hr
  obtain ⟨r3, hr3, hd3⟩ := hb3 r2 hr2
  exact ⟨r3, hr3, hd3.trans hd2⟩

lemma updateObj_heapExt (h : Heap) (a : Nat) (o o2 : JSObj)
    (hl : heapLookup h a = some o)
    (hv : o2.isVNode = o.isVNode) (ha : o2.isArray = o.isArray)
    (hb : ∀ r, o.ob = some r → ∃ r2, o2.ob = some r2 ∧ r2.dep = r.dep)
    (hfk : ∀ k, (o.fields.lookup k).isSome → (o2.fields.lookup k).isSome) :
    HeapExt h (updateObj h a o2) := by
  intro x ox hx
  by_cases hxa : x = a
  · subst hxa
    rw [hl] at hx
    injection hx with hoo
    refine ⟨o2, heapLookup_updateObj_self x o o2 h hl, ?_, ?_, ?_, ?_⟩
    · rw [← hoo]; exact hv
    · rw [← hoo]; exact ha
    · rw [← hoo]; exact hb
    · rw [← hoo]; exact hfk
  · exact ⟨ox, by rw [heapLookup_updateObj_ne a x o2 hxa h]; exact hx,
      rfl, rfl, fun r hr => ⟨r, hr, rfl⟩, fun _ hk => hk⟩

lemma bumpVm_heapExt (σ : ObsState) (a : Nat) :
    HeapExt σ.heap (bumpVm σ a).heap := by
  cases hl : heapLookup σ.heap a with
  | none => simp only [bumpVm, hl]; exact heapExt_refl _
  | some o =>
    cases hob : o.ob with
    | none => simp only [bumpVm, hl, hob]; exact heapExt_refl _
    | some r =>
      simp only [bumpVm, hl, hob]
      refine updateObj_heapExt σ.heap a o _ hl rfl rfl ?_ (fun _ hk => hk)
      intro r2 hr2
      rw [hob] at hr2
      injection hr2 with hrr
      exact ⟨⟨r.dep, r.vmCount + 1⟩, rfl, by rw [← hrr]⟩

lemma updateField_heapExt (σ : ObsState) (a : Nat) (key : String)
    (slot : FieldSlot) : HeapExt σ.heap (updateField σ a key slot).heap := by
  cases hl : heapLookup σ.heap a with
  | none => simp only [updateField, hl]; exact heapExt_refl _
  | some o =>
    simp only [updateField, hl]
    refine updateObj_heapExt σ.heap a o _ hl rfl rfl
      (fun r hr => ⟨r, hr, rfl⟩) ?_
    intro k hk
    by_cases hkk : k = key
    · subst hkk
      obtain ⟨s0, hs0⟩ := Option.isSome_iff_exists.mp hk
      rw [lookup_setSlot_self k slot s0 o.fields hs0]
      rfl
    · rw [lookup_setSlot_ne k key slot hkk o.fields]
      exact hk

lemma obsGo_heapExt (so : Bool) :
    ∀ (fuel : Nat) (task : ObsTask) (σ : ObsState),
      HeapExt σ.heap (obsGo so fuel σ task).2.heap := by
  intro fuel
  induction fuel with
  | zero => intro task σ; exact heapExt_refl σ.heap
  | succ fuel ih =>
    intro task σ
    match task with
    | ObsTask.obs v asRoot =>
      cases v with
      | undef => exact heapExt_refl σ.heap
      | null => exact heapExt_refl σ.heap
      | boolean b => exact heapExt_refl σ.heap
      | num n => exact heapExt_refl σ.heap
      | nan => exact heapExt_refl σ.heap
      | str t => exact heapExt_refl σ.heap
      | obj a =>
        rw [obsGo]
        split
        · exact heapExt_refl _
        · split
          · exact heapExt_refl _
          · split
            · split
              · exact bumpVm_heapExt σ a
              · exact heapExt_refl _
            · split
              · simp only []
                split
                · exact heapExt_comp _ _ _ (ih (ObsTask.newOb a) σ)
                    (bumpVm_heapExt _ a)
                · exact ih (ObsTask.newOb a) σ
              · exact heapExt_refl _
    | ObsTask.newOb a =>
      rw [obsGo]
      split
      · exact heapExt_refl _
      · rename_i o hl
        split
        · exact heapExt_refl _
        · rename_i hob
          have hstep1 : HeapExt σ.heap (updateObj σ.heap a
              { o with ob := some (ObRec.mk σ.nextDep 0) }) :=
            updateObj_heapExt σ.heap a o _ hl rfl rfl
              (fun r hr => by rw [hob] at hr; exact Option.noConfusion hr)
              (fun _ hk => hk)
          simp only []
          split
          · exact heapExt_comp _ _ _ hstep1 (ih (ObsTask.obsList o.elems)
              ⟨updateObj σ.heap a { o with ob := some (ObRec.mk σ.nextDep 0) },
                σ.nextDep + 1⟩)
          · exact heapExt_comp _ _ _ hstep1
              (ih (ObsTask.walk a (o.fields.map Prod.fst))
                ⟨updateObj σ.heap a { o with ob := some (ObRec.mk σ.nextDep 0) },
                  σ.nextDep + 1⟩)
    | ObsTask.obsList vs =>
      cases vs with
      | nil => exact heapExt_refl σ.heap
      | cons e es =>
        exact heapExt_comp _ _ _ (ih (ObsTask.obs e false) σ)
          (ih (ObsTask.obsList es) _)
    | ObsTask.walk a keys =>
      cases keys with
      | nil => exact heapExt_refl σ.heap
      | cons k ks =>
        exact heapExt_comp _ _ _ (ih (ObsTask.defineR a k) σ)
          (ih (ObsTask.walk a ks) _)
    | ObsTask.defineR a key =>
      rw [obsGo]
      split
      · exact heapExt_refl _
      · split
        · exact heapExt_refl _
        · exact heapExt_comp _ _ _
            (ih (ObsTask.obs _ false) { σ with nextDep := σ.nextDep + 1 })
            (updateField_heapExt _ _ _ _)

lemma strictEq_self_false_iff (v : JSValue) :
    strictEq v v = false ↔ v = JSValue.nan := by
  cases v <;> simp [strictEq]

/-- C4: for a reactive field, writing a value that is `===`-equal to the
current one — or where both old and new value are NaN — is a complete
no-op: state unchanged, zero notifications.  Otherwise the new value is
stored, `childOb` is re-derived by observing the new value (wrapping it if
it is an observable container), and the field's dep is notified exactly
once. -/
theorem reactiveSetter_noop_iff_equal (so : Bool) (fuel : Nat) (σ : ObsState)
    (a : Nat) (key : String) (o : JSObj) (val newVal : JSValue) (dep : Nat)
    (chOb : Option Nat)
    (hlook : heapLookup σ.heap a = some o)
    (hslot : o.fields.lookup key = some (FieldSlot.reactive val dep chOb)) :
    ((strictEq newVal val = true ∨ (newVal = JSValue.nan ∧ val = JSValue.nan)) →
      reactiveSetter so fuel σ a key newVal = (σ, [])) ∧
    (strictEq newVal val = false → ¬(newVal = JSValue.nan ∧ val = JSValue.nan) →
      (reactiveSetter so fuel σ a key newVal).2 = [dep] ∧
      ∃ o2, heapLookup (reactiveSetter so fuel σ a key newVal).1.heap a =
          some o2 ∧
        o2.fields.lookup key = some (FieldSlot.reactive newVal dep
          (observe so fuel
            (updateField σ a key (FieldSlot.reactive newVal dep chOb))
            newVal false).1)) := by
  constructor
  · intro heq
    have hc : strictEq newVal val = true ∨
        (strictEq newVal newVal = false ∧ strictEq val val = false) := by
      rcases heq with heq | ⟨hn1, hn2⟩
      · exact Or.inl heq
      · exact Or.inr ⟨(strictEq_self_false_iff newVal).mpr hn1,
          (strictEq_self_false_iff val).mpr hn2⟩
    rw [reactiveSetter, hlook]
    simp only
    rw [hslot]
    simp only
    rw [if_pos hc]
  · intro hne hnan
    have hcondf : ¬(strictEq newVal val = true ∨
        (strictEq newVal newVal = false ∧ strictEq val val = false)) := by
      rintro (hc | ⟨hc1, hc2⟩)
      · rw [hne] at hc; cases hc
      · exact hnan ⟨(strictEq_self_false_iff newVal).mp hc1,
          (strictEq_self_false_iff val).mp hc2⟩
    rw [reactiveSetter, hlook]
    simp only
    rw [hslot]
    simp only
    rw [if_neg hcondf]
    refine ⟨rfl, ?_⟩
    simp only
    have hlook1 : heapLookup
        (updateField σ a key (FieldSlot.reactive newVal dep chOb)).heap a =
        some (JSObj.mk (setSlot o.fields key (FieldSlot.reactive newVal dep chOb)) o.elems o.isArray o.plainObj o.extensible o.isVue o.isVNode o.ob) := by
      rw [updateField, hlook]
      simp only
      exact heapLookup_updateObj_self a o _ σ.heap hlook
    obtain ⟨o2, hlo2, _, _, _, hfk2⟩ :=
      obsGo_heapExt so fuel (ObsTask.obs newVal false)
        (updateField σ a key (FieldSlot.reactive newVal dep chOb)) a _ hlook1
    have hkey2 : ((o2.fields).lookup key).isSome := by
      apply hfk2
      simp only
      rw [lookup_setSlot_self key (FieldSlot.reactive newVal dep chOb)
        (FieldSlot.reactive val dep chOb) o.fields hslot]
      rfl
    obtain ⟨s2, hs2⟩ := Option.isSome_iff_exists.mp hkey2
    have hlo2x : heapLookup (observe so fuel
        (updateField σ a key (FieldSlot.reactive newVal dep chOb))
        newVal false).2.heap a = some o2 := hlo2
    refine ⟨JSObj.mk (setSlot o2.fields key (FieldSlot.reactive newVal dep (observe so fuel (updateField σ a key (FieldSlot.reactive newVal dep chOb)) newVal false).1)) o2.elems o2.isArray o2.plainObj o2.extensible o2.isVue o2.isVNode o2.ob, ?_, ?_⟩
    · rw [updateField]
      rw [hlo2x]
      simp only
      exact heapLookup_updateObj_self a o2 _ _ hlo2x
    · simp only
      exact lookup_setSlot_self key _ s2 o2.fields hs2

/-- A concrete heap for witnesses: object 0 is observed, with one reactive
field "x" holding 1 (field dep 3), its wrapper dep 2. -/
def sigW : ObsState :=
  ⟨[(0, JSObj.mk [("x", FieldSlot.reactive (JSValue.num 1) 3 none)] []
      false true true false false (some (ObRec.mk 2 0)))], 4⟩

/-- Witness for C4: on `sigW`, writing 1 over 1 is a complete no-op;
writing 2 notifies dep 3 exactly once and stores 2. -/
theorem reactiveSetter_noop_iff_equal_witness :
    reactiveSetter true 5 sigW 0 "x" (JSValue.num 1) = (sigW, []) ∧
    (reactiveSetter true 5 sigW 0 "x" (JSValue.num 2)).2 = [3] ∧
    (∃ o2, heapLookup (reactiveSetter true 5 sigW 0 "x"
        (JSValue.num 2)).1.heap 0 = some o2 ∧
      o2.fields.lookup "x" = some (FieldSlot.reactive (JSValue.num 2) 3
        (observe true 5 (updateField sigW 0 "x"
          (FieldSlot.reactive (JSValue.num 2) 3 none))
          (JSValue.num 2) false).1)) :=
  ⟨(reactiveSetter_noop_iff_equal true 5 sigW 0 "x" _ (JSValue.num 1)
      (JSValue.num 1) 3 none rfl rfl).1 (Or.inl rfl),
   (reactiveSetter_noop_iff_equal true 5 sigW 0 "x" _ (JSValue.num 1)
      (JSValue.num 2) 3 none rfl rfl).2 rfl (by simp)⟩

/-- C10: `set(target, key, val)` on a plain, non-array object without a
wrapper (`__ob__` absent) and not a Vue instance, with a key not already
present, performs a bare assignment: the new key is appended as a plain
(non-reactive) slot, no dep is allocated, no notification fires, and `val`
is returned. -/
theorem set_unobserved_target_plain_assign (so : Bool) (fuel : Nat)
    (σ : ObsState) (a : Nat) (key : String) (val : JSValue) (o : JSObj)
    (hlook : heapLookup σ.heap a = some o) (harr : o.isArray = false)
    (hkey : o.fields.lookup key = none) (hvue : o.isVue = false)
    (hob : o.ob = none) :
    setField so fuel σ (JSValue.obj a) key val =
      (addField σ a key (FieldSlot.plain val), [], val) ∧
    (setField so fuel σ (JSValue.obj a) key val).1.nextDep = σ.nextDep ∧
    heapLookup (setField so fuel σ (JSValue.obj a) key val).1.heap a =
      some (JSObj.mk (o.fields ++ [(key, FieldSlot.plain val)]) o.elems
        o.isArray o.plainObj o.extensible o.isVue o.isVNode o.ob) := by
  have hmain : setField so fuel σ (JSValue.obj a) key val =
      (addField σ a key (FieldSlot.plain val), [], val) := by
    rw [setField, hlook]
    simp only
    rw [if_neg (by simp [harr])]
    rw [if_neg (by simp [hkey])]
    rw [if_neg (by simp [hvue, hob, vmPos])]
    rw [hob]
  refine ⟨hmain, ?_, ?_⟩
  · rw [hmain]
    simp only
    rw [addField, hlook]
  · rw [hmain]
    simp only
    rw [addField, hlook]
    simp only
    exact heapLookup_updateObj_self a o _ σ.heap hlook

/-- An unobserved plain object for the C10 witness. -/
def sigP : ObsState :=
  ⟨[(1, JSObj.mk [("y", FieldSlot.plain (JSValue.num 7))] []
      false true true false false none)], 0⟩

/-- Witness for C10: adding key "z" to the unobserved object 1 of `sigP` is
a silent plain assignment. -/
theorem set_unobserved_target_plain_assign_witness :
    setField true 5 sigP (JSValue.obj 1) "z" (JSValue.num 9) =
      (addField sigP 1 "z" (FieldSlot.plain (JSValue.num 9)), [],
        JSValue.num 9) ∧
    (setField true 5 sigP (JSValue.obj 1) "z" (JSValue.num 9)).1.nextDep =
      sigP.nextDep ∧
    heapLookup (setField true 5 sigP (JSValue.obj 1) "z"
        (JSValue.num 9)).1.heap 1 =
      some (JSObj.mk [("y", FieldSlot.plain (JSValue.num 7)),
        ("z", FieldSlot.plain (JSValue.num 9))] [] false true true false
        false none) :=
  set_unobserved_target_plain_assign true 5 sigP 1 "z" (JSValue.num 9) _
    rfl rfl rfl rfl rfl

/-- C9: `observe` is idempotent.  Non-objects and VNodes are never
observable (result `none`, state untouched); a value already carrying a
wrapper returns that wrapper with no state change (no new `Observer`, no
new dep); a value failing the creation guard returns `none` untouched; and
a successful observation returns the value's own address and is repeatable
— the second call returns the same wrapper and changes nothing, so at most
one wrapper is ever associated with a container. -/
theorem observe_idempotent (so : Bool) (fuel : Nat) (σ : ObsState) :
    (∀ (v : JSValue) (r : Bool), isObject v = false →
      observe so (fuel + 1) σ v r = (none, σ)) ∧
    (∀ (a : Nat) (o : JSObj) (r : Bool), heapLookup σ.heap a = some o →
      o.isVNode = true → observe so (fuel + 1) σ (JSValue.obj a) r = (none, σ)) ∧
    (∀ (a : Nat) (o : JSObj) (rec : ObRec), heapLookup σ.heap a = some o →
      o.isVNode = false → o.ob = some rec →
      observe so (fuel + 1) σ (JSValue.obj a) false = (some a, σ)) ∧
    (∀ (a : Nat) (o : JSObj), heapLookup σ.heap a = some o →
      o.isVNode = false → o.ob = none →
      ¬(so = true ∧ (o.isArray = true ∨ o.plainObj = true) ∧
        o.extensible = true ∧ o.isVue = false) →
      observe so (fuel + 1) σ (JSValue.obj a) false = (none, σ)) ∧
    (∀ (a b : Nat) (σ2 : ObsState),
      observe so (fuel + 2) σ (JSValue.obj a) false = (some b, σ2) →
      b = a ∧ observe so (fuel + 2) σ2 (JSValue.obj a) false = (some a, σ2)) := by
  have hexist : ∀ (f : Nat) (σx : ObsState) (ax : Nat) (ox : JSObj)
      (rx : ObRec), heapLookup σx.heap ax = some ox → ox.isVNode = false →
      ox.ob = some rx →
      observe so (f + 1) σx (JSValue.obj ax) false = (some ax, σx) := by
    intro f σx ax ox rx hl hvn hob
    rw [observe, obsGo, hl]
    simp only
    rw [if_neg (by simp [hvn]), hob]
    rfl
  refine ⟨?_, ?_, ?_, ?_, ?_⟩
  · intro v r hv
    cases v with
    | obj a => simp [isObject] at hv
    | undef => rfl
    | null => rfl
    | boolean b => rfl
    | num n => rfl
    | nan => rfl
    | str t => rfl
  · intro a o r hl hvn
    rw [observe, obsGo, hl]
    simp only
    rw [if_pos hvn]
  · intro a o rec hl hvn hob
    exact hexist fuel σ a o rec hl hvn hob
  · intro a o hl hvn hob hguard
    rw [observe, obsGo, hl]
    simp only
    rw [if_neg (by simp [hvn]), hob]
    simp only
    rw [if_neg hguard]
  · intro a b σ2 hsucc
    rw [observe, obsGo] at hsucc
    cases hl : heapLookup σ.heap a with
    | none =>
      rw [hl] at hsucc
      simp only [Prod.mk.injEq] at hsucc
      exact absurd hsucc.1 (by simp)
    | some o =>
      rw [hl] at hsucc
      simp only at hsucc
      by_cases hvn : o.isVNode = true
      · rw [if_pos hvn] at hsucc
        simp only [Prod.mk.injEq] at hsucc
        exact absurd hsucc.1 (by simp)
      · rw [if_neg hvn] at hsucc
        have hvnf : o.isVNode = false := by
          cases hx : o.isVNode
          · rfl
          · exact absurd hx hvn
        cases hob : o.ob with
        | some rec =>
          rw [hob] at hsucc
          simp only [Bool.false_eq_true, if_false, Prod.mk.injEq] at hsucc
          obtain ⟨hb, hσ⟩ := hsucc
          injection hb with hb
          subst hσ
          exact ⟨hb.symm, hexist (fuel + 1) σ a o rec hl hvnf hob⟩
        | none =>
          rw [hob] at hsucc
          simp only at hsucc
          by_cases hguard : so = true ∧ (o.isArray = true ∨ o.plainObj = true) ∧
              o.extensible = true ∧ o.isVue = false
          · rw [if_pos hguard] at hsucc
            simp only [Bool.false_eq_true, if_false, Prod.mk.injEq] at hsucc
            obtain ⟨hb, hσ2⟩ := hsucc
            injection hb with hb
            have hred : obsGo so (fuel + 1) σ (ObsTask.newOb a) =
                (if o.isArray = true then
                  obsGo so fuel
                    ⟨updateObj σ.heap a (JSObj.mk o.fields o.elems o.isArray o.plainObj o.extensible o.isVue o.isVNode (some (ObRec.mk σ.nextDep 0))), σ.nextDep + 1⟩
                    (ObsTask.obsList o.elems)
                 else
                  obsGo so fuel
                    ⟨updateObj σ.heap a (JSObj.mk o.fields o.elems o.isArray o.plainObj o.extensible o.isVue o.isVNode (some (ObRec.mk σ.nextDep 0))), σ.nextDep + 1⟩
                    (ObsTask.walk a (o.fields.map Prod.fst))) := by
              rw [obsGo, hl]
              simp only
              rw [hob]
            have hlook1 : heapLookup (updateObj σ.heap a (JSObj.mk o.fields o.elems o.isArray o.plainObj o.extensible o.isVue o.isVNode (some (ObRec.mk σ.nextDep 0)))) a = some (JSObj.mk o.fields o.elems o.isArray o.plainObj o.extensible o.isVue o.isVNode (some (ObRec.mk σ.nextDep 0))) :=
              heapLookup_updateObj_self a o _ σ.heap hl
            have hfinal : ∃ o3 r3,
                heapLookup (obsGo so (fuel + 1) σ (ObsTask.newOb a)).2.heap a =
                  some o3 ∧ o3.isVNode = false ∧ o3.ob = some r3 := by
              rw [hred]
              by_cases hoa : o.isArray = true
              · rw [if_pos hoa]
                obtain ⟨o3, hlo3, hv3, _, hb3, _⟩ :=
                  obsGo_heapExt so fuel (ObsTask.obsList o.elems)
                    ⟨updateObj σ.heap a (JSObj.mk o.fields o.elems o.isArray o.plainObj o.extensible o.isVue o.isVNode (some (ObRec.mk σ.nextDep 0))), σ.nextDep + 1⟩
                    a _ hlook1
                obtain ⟨r3, hr3, _⟩ := hb3 (ObRec.mk σ.nextDep 0) rfl
                exact ⟨o3, r3, hlo3, by rw [hv3]; exact hvnf, hr3⟩
              · rw [if_neg hoa]
                obtain ⟨o3, hlo3, hv3, _, hb3, _⟩ :=
                  obsGo_heapExt so fuel (ObsTask.walk a (o.fields.map Prod.fst))
                    ⟨updateObj σ.heap a (JSObj.mk o.fields o.elems o.isArray o.plainObj o.extensible o.isVue o.isVNode (some (ObRec.mk σ.nextDep 0))), σ.nextDep + 1⟩
                    a _ hlook1
                obtain ⟨r3, hr3, _⟩ := hb3 (ObRec.mk σ.nextDep 0) rfl
                exact ⟨o3, r3, hlo3, by rw [hv3]; exact hvnf, hr3⟩
            obtain ⟨o3, r3, hlo3, hv3, hr3⟩ := hfinal
            subst hσ2
            exact ⟨hb.symm, hexist (fuel + 1) _ a o3 r3 hlo3 hv3 hr3⟩
          · rw [if_neg hguard] at hsucc
            simp only [Prod.mk.injEq] at hsucc
            exact absurd hsucc.1 (by simp)

/-- Witness heap for C9: object 0 is an unobserved plain object, object 7
is a VNode, object 9 is non-extensible. -/
def sigF : ObsState :=
  ⟨[(0, JSObj.mk [("x", FieldSlot.plain (JSValue.num 1))] [] false true
      true false false none),
    (7, JSObj.mk [] [] false false true false true none),
    (9, JSObj.mk [] [] false true false false false none)], 0⟩

/-- The state after observing object 0 of `sigF`. -/
def sigF2 : ObsState := (observe true 7 sigF (JSValue.obj 0) false).2

/-- Witness for C9: each clause of `observe_idempotent` at concrete
inputs — a number, a VNode, an already-wrapped object, a non-extensible
object, and the repeat of a successful fresh observation. -/
theorem observe_idempotent_witness :
    observe true 6 sigF (JSValue.num 3) false = (none, sigF) ∧
    observe true 6 sigF (JSValue.obj 7) false = (none, sigF) ∧
    observe true 6 sigW (JSValue.obj 0) false = (some 0, sigW) ∧
    observe true 6 sigF (JSValue.obj 9) false = (none, sigF) ∧
    observe true 7 sigF2 (JSValue.obj 0) false = (some 0, sigF2) :=
  ⟨(observe_idempotent true 5 sigF).1 (JSValue.num 3) false rfl,
   (observe_idempotent true 5 sigF).2.1 7 _ false rfl rfl,
   (observe_idempotent true 5 sigW).2.2.1 0 _ (ObRec.mk 2 0) rfl rfl rfl,
   (observe_idempotent true 5 sigF).2.2.2.1 9 _ rfl rfl rfl (by decide),
   ((observe_idempotent true 5 sigF).2.2.2.2 0 0 sigF2 (by decide)).2⟩

/-!
## C2: queueWatcher during a flush
-/

lemma spliceGo_spec (q : List Nat) (index wid : Nat) :
    ∀ i, index ≤ i → i < q.length →
      (∀ j, i < j → j < q.length → wid < q.getD j 0) →
      (index < spliceGo q index wid i ∧ spliceGo q index wid i ≤ i + 1 ∧
       (∀ j, spliceGo q index wid i ≤ j → j < q.length → wid < q.getD j 0) ∧
       (spliceGo q index wid i = index + 1 ∨
        (index + 1 ≤ spliceGo q index wid i - 1 ∧
          q.getD (spliceGo q index wid i - 1) 0 ≤ wid))) := by
  intro i
  induction i with
  | zero =>
    intro hle hlen hge
    have hix : index = 0 := Nat.le_zero.mp hle
    rw [spliceGo]
    refine ⟨by omega, by omega, ?_, Or.inl (by omega)⟩
    intro j h1 h2
    exact hge j (by omega) h2
  | succ i ih =>
    intro hle hlen hge
    rw [spliceGo]
    by_cases hc : i + 1 > index ∧ wid < q.getD (i + 1) 0
    · rw [if_pos hc]
      have hge2 : ∀ j, i < j → j < q.length → wid < q.getD j 0 := by
        intro j h1 h2
        by_cases hj : j = i + 1
        · rw [hj]; exact hc.2
        · exact hge j (by omega) h2
      obtain ⟨h1, h2, h3, h4⟩ := ih (by omega) (by omega) hge2
      exact ⟨h1, by omega, h3, h4⟩
    · rw [if_neg hc]
      rcases not_and_or.mp hc with hc1 | hc2
      · have hix : index = i + 1 := by omega
        refine ⟨by omega, by omega, ?_, Or.inl (by omega)⟩
        intro j h1 h2
        exact hge j (by omega) h2
      · refine ⟨by omega, by omega, ?_, ?_⟩
        · intro j h1 h2
          exact hge j (by omega) h2
        · by_cases hc1 : i + 1 > index
          · exact Or.inr ⟨by omega, by simpa using not_lt.mp hc2⟩
          · exact Or.inl (by omega)

lemma splicePos_spec (q : List @Nat) (index wid : Nat)
    (hidx : index < q.length) :
    index < splicePos q index wid ∧ splicePos q index wid ≤ q.length ∧
    (∀ j, splicePos q index wid ≤ j → j < q.length → wid < q.getD j 0) ∧
    (splicePos q index wid = index + 1 ∨
      (index + 1 ≤ splicePos q index wid - 1 ∧
        q.getD (splicePos q index wid - 1) 0 ≤ wid)) := by
  match q with
  | [] => simp at hidx
  | x :: xs =>
    have hspec := spliceGo_spec (x :: xs) index wid ((x :: xs).length - 1)
      (by simp at hidx ⊢; omega) (by simp) (by intro j h1 h2; simp at h1 h2; omega)
    have hpos : splicePos (x :: xs) index wid =
        spliceGo (x :: xs) index wid ((x :: xs).length - 1) := rfl
    rw [hpos]
    refine ⟨hspec.1, by have := hspec.2.1; simp at this ⊢; omega,
      hspec.2.2.1, hspec.2.2.2⟩

lemma mem_drop_exists_getD (q : List Nat) (n x : Nat) (hx : x ∈ q.drop n) :
    ∃ j, n ≤ j ∧ j < q.length ∧ q.getD j 0 = x := by
  obtain ⟨t, ht, hxt⟩ := List.mem_iff_getElem.mp hx
  have hlen : n + t < q.length := by
    have := ht; simp [List.length_drop] at this; omega
  refine ⟨n + t, by omega, hlen, ?_⟩
  rw [List.getD_eq_getElem q 0 hlen, ← List.getElem_drop, hxt]

lemma mem_take_drop_exists_getD (q : List Nat) (n m x : Nat)
    (hx : x ∈ (q.drop n).take m) :
    ∃ j, n ≤ j ∧ j < n + m ∧ j < q.length ∧ q.getD j 0 = x := by
  obtain ⟨t, ht, hxt⟩ := List.mem_iff_getElem.mp hx
  have htm : t < m ∧ n + t < q.length := by
    have := ht; simp [List.length_take, List.length_drop] at this; omega
  have hlen : n + t < q.length := htm.2
  refine ⟨n + t, by omega, by omega, hlen, ?_⟩
  rw [List.getD_eq_getElem q 0 hlen]
  rw [List.getElem_take] at hxt
  rw [← List.getElem_drop, hxt]

lemma getD_mem_drop (q : List Nat) (n j : Nat) (h1 : n ≤ j)
    (h2 : j < q.length) : q.getD j 0 ∈ q.drop n := by
  have hlen : j - n < (q.drop n).length := by simp [List.length_drop]; omega
  have e : n + (j - n) = j := by omega
  have : (q.drop n)[j - n] = q.getD j 0 := by
    rw [List.getElem_drop]
    simp only [e]
    rw [List.getD_eq_getElem q 0 h2]
  rw [← this]
  exact List.getElem_mem hlen

lemma sorted_drop_getD_lt (q : List Nat) (n : Nat)
    (hs : (q.drop n).Sorted (· < ·)) (j1 j2 : Nat) (h1 : n ≤ j1)
    (h2 : j1 < j2) (h3 : j2 < q.length) :
    q.getD j1 0 < q.getD j2 0 := by
  have hi1 : j1 - n < (q.drop n).length := by simp [List.length_drop]; omega
  have hi2 : j2 - n < (q.drop n).length := by simp [List.length_drop]; omega
  have hp := List.pairwise_iff_getElem.mp hs (j1 - n) (j2 - n) hi1 hi2 (by omega)
  rw [List.getElem_drop, List.getElem_drop] at hp
  have e1 : n + (j1 - n) = j1 := by omega
  have e2 : n + (j2 - n) = j2 := by omega
  rw [List.getD_eq_getElem q 0 (by omega : j1 < q.length),
      List.getD_eq_getElem q 0 h3]
  simp only [e1, e2] at hp
  exact hp

lemma spliced_portion (q : List Nat) (index w : Nat)
    (hidx : index < q.length)
    (hsort : (q.drop (index + 1)).Sorted (· < ·))
    (hwq : w ∉ q.drop (index + 1)) :
    ((q.take (splicePos q index w) ++
      w :: q.drop (splicePos q index w)).drop (index + 1)).Sorted (· < ·) ∧
    ((q.take (splicePos q index w) ++
      w :: q.drop (splicePos q index w)).drop (index + 1)).count w = 1 ∧
    ((∀ x ∈ q.drop (index + 1), w < x) → splicePos q index w = index + 1) := by
  obtain ⟨hp1, hp2, hp3, hp4⟩ := splicePos_spec q index w hidx
  set pos := splicePos q index w with hposdef
  have hlen_take : (q.take pos).length = pos := by
    rw [List.length_take]; omega
  have heq1 : (q.take pos ++ w :: q.drop pos).drop (index + 1) =
      (q.take pos).drop (index + 1) ++ w :: q.drop pos :=
    List.drop_append_of_le_length (by omega)
  have heq2 : (q.take pos).drop (index + 1) =
      (q.drop (index + 1)).take (pos - (index + 1)) := List.drop_take ..
  have heq3 : (q.drop (index + 1)).drop (pos - (index + 1)) = q.drop pos := by
    rw [List.drop_drop]
    congr 1
    omega
  have hfacts_take : ∀ x ∈ (q.drop (index + 1)).take (pos - (index + 1)),
      x < w := by
    intro x hx
    obtain ⟨j, hj1, hj2, hj3, hj4⟩ :=
      mem_take_drop_exists_getD q (index + 1) (pos - (index + 1)) x hx
    have hxmem : x ∈ q.drop (index + 1) := by
      rw [← hj4]; exact getD_mem_drop q (index + 1) j hj1 hj3
    have hxnew : x ≠ w := fun hc => hwq (hc ▸ hxmem)
    rcases hp4 with hcase | ⟨hge, hle⟩
    · omega
    · by_cases hj5 : j = pos - 1
      · rw [← hj4, hj5] at hxnew ⊢
        omega
      · have hlt : q.getD j 0 < q.getD (pos - 1) 0 :=
          sorted_drop_getD_lt q (index + 1) hsort j (pos - 1) hj1 (by omega)
            (by omega)
        omega
  have hfacts_drop : ∀ x ∈ q.drop pos, w < x := by
    intro x hx
    obtain ⟨j, hj1, hj2, hj3⟩ := mem_drop_exists_getD q pos x hx
    have := hp3 j hj1 hj2
    omega
  have hsort_drop : (q.drop pos).Sorted (· < ·) := by
    rw [← heq3]
    exact hsort.sublist (List.drop_sublist _ _)
  refine ⟨?_, ?_, ?_⟩
  · rw [heq1, heq2]
    refine List.pairwise_append.mpr ⟨hsort.sublist (List.take_sublist _ _),
      ?_, ?_⟩
    · rw [List.pairwise_cons]
      exact ⟨hfacts_drop, hsort_drop⟩
    · intro a ha b hb
      have haw := hfacts_take a ha
      rcases List.mem_cons.mp hb with hb | hb
      · omega
      · have := hfacts_drop b hb
        omega
  · rw [heq1, heq2]
    have hnotin_take : w ∉ (q.drop (index + 1)).take (pos - (index + 1)) :=
      fun hc => hwq ((List.take_sublist _ _).subset hc)
    have hnotin_drop : w ∉ q.drop pos := by
      rw [← heq3]
      exact fun hc => hwq ((List.drop_sublist _ _).subset hc)
    rw [List.count_append, List.count_cons_self,
      List.count_eq_zero.mpr hnotin_take, List.count_eq_zero.mpr hnotin_drop]
  · intro hall
    rcases hp4 with h | ⟨hge, hle⟩
    · exact h
    · exfalso
      have hmem : q.getD (pos - 1) 0 ∈ q.drop (index + 1) :=
        getD_mem_drop q (index + 1) (pos - 1) (by omega) (by omega)
      have := hall _ hmem
      omega

lemma queueWatcher_flushing (s : Sched) (w : Nat)
    (hw : w ∉ s.has) (hf : s.flushing = true) :
    (queueWatcher s w).queue =
      s.queue.take (splicePos s.queue s.index w) ++
        w :: s.queue.drop (splicePos s.queue s.index w) ∧
    (queueWatcher s w).has = s.has ++ [w] ∧
    (queueWatcher s w).runOrder = s.runOrder ∧
    (queueWatcher s w).index = s.index ∧
    (queueWatcher s w).aborted = s.aborted := by
  by_cases hwt : s.waiting = false <;> simp [queueWatcher, hw, hf, hwt]

/-- C2 (amended): if `queueWatcher` is called while the scheduler is
flushing with a watcher id not in the membership set, the watcher is
spliced into the unprocessed portion of the queue — at a position strictly
past the cursor that keeps the unprocessed portion sorted ascending, where
it now appears exactly once — and the remainder of the flush (absent
further re-entrant enqueues) runs it exactly once more.  When its id is
greater than every remaining id this is its sorted position; when its id
has already been passed by the cursor the watcher is inserted immediately
after the cursor and runs again within the current flush — it is NOT
deduplicated against the already-processed portion. -/
theorem queueWatcher_during_flush_spliced (dev : Bool) (s : Sched) (w : Nat)
    (fuel : Nat) (hf : s.flushing = true) (hw : w ∉ s.has)
    (hhn : s.has.Nodup) (hidx : s.index < s.queue.length)
    (hsort : (s.queue.drop (s.index + 1)).Sorted (· < ·))
    (hwq : w ∉ s.queue.drop (s.index + 1))
    (hfuel : s.queue.length - s.index ≤ fuel) :
    (queueWatcher s w).queue =
      s.queue.take (splicePos s.queue s.index w) ++
        w :: s.queue.drop (splicePos s.queue s.index w) ∧
    s.index < splicePos s.queue s.index w ∧
    splicePos s.queue s.index w ≤ s.queue.length ∧
    ((queueWatcher s w).queue.drop (s.index + 1)).Sorted (· < ·) ∧
    ((queueWatcher s w).queue.drop (s.index + 1)).count w = 1 ∧
    ((∀ x ∈ s.queue.drop (s.index + 1), w < x) →
      splicePos s.queue s.index w = s.index + 1) ∧
    (flushLoop dev (fun _ => []) fuel
      { queueWatcher s w with index := s.index + 1 }).runOrder.count w =
      s.runOrder.count w + 1 := by
  obtain ⟨hq, hh, hro, hix, hab⟩ := queueWatcher_flushing s w hw hf
  obtain ⟨hp1, hp2, hp3, hp4⟩ := splicePos_spec s.queue s.index w hidx
  obtain ⟨hso, hct, hpassed⟩ := spliced_portion s.queue s.index w hidx hsort hwq
  have hlen2 : (queueWatcher s w).queue.length = s.queue.length + 1 := by
    rw [hq]
    simp [List.length_take]
    omega
  refine ⟨hq, hp1, hp2, by rw [hq]; exact hso, by rw [hq]; exact hct,
    hpassed, ?_⟩
  have hhn2 : (queueWatcher s w).has.Nodup := by
    rw [hh]
    simp [List.nodup_append, hhn, hw]
  obtain ⟨hd1, hd2, hd3, hd4⟩ := flushLoop_noEff dev fuel
    { queueWatcher s w with index := s.index + 1 }
    (by simpa using hhn2) (by simp [hlen2]; omega) (by simp [hlen2]; omega)
  rw [hd1]
  simp only [List.count_append]
  have : ({ queueWatcher s w with index := s.index + 1 } : Sched).runOrder =
      s.runOrder := by simpa using hro
  rw [this]
  have hq2 : ({ queueWatcher s w with index := s.index + 1 } : Sched).queue =
      (queueWatcher s w).queue := rfl
  rw [hq2]
  have hcount : ((queueWatcher s w).queue.drop (s.index + 1)).count w = 1 := by
    rw [hq]; exact hct
  simp [hcount]

/-- Witness for the amended C2: flushing scheduler with queue [1, 2, 3] at
cursor 1 (watcher 1 already ran), re-enqueueing the already-passed id 1:
it is spliced right after the cursor and the rest of the flush runs it a
second time. -/
theorem queueWatcher_during_flush_spliced_witness :
    (queueWatcher ⟨[1, 2, 3], [2, 3], [], true, true, 1, [1], 0, false⟩
        1).queue =
      ([1, 2, 3] : List Nat).take (splicePos [1, 2, 3] 1 1) ++
        1 :: ([1, 2, 3] : List Nat).drop (splicePos [1, 2, 3] 1 1) ∧
    1 < splicePos [1, 2, 3] 1 1 ∧
    splicePos [1, 2, 3] 1 1 ≤ 3 ∧
    ((queueWatcher ⟨[1, 2, 3], [2, 3], [], true, true, 1, [1], 0, false⟩
        1).queue.drop 2).Sorted (· < ·) ∧
    ((queueWatcher ⟨[1, 2, 3], [2, 3], [], true, true, 1, [1], 0, false⟩
        1).queue.drop 2).count 1 = 1 ∧
    ((∀ x ∈ ([1, 2, 3] : List Nat).drop 2, 1 < x) →
      splicePos [1, 2, 3] 1 1 = 2) ∧
    (flushLoop true (fun _ => []) 5
      { queueWatcher ⟨[1, 2, 3], [2, 3], [], true, true, 1, [1], 0, false⟩ 1
        with index := 2 }).runOrder.count 1 = 2 :=
  queueWatcher_during_flush_spliced true
    ⟨[1, 2, 3], [2, 3], [], true, true, 1, [1], 0, false⟩ 1 5 rfl (by decide)
    (by decide) (by decide) (by decide) (by decide) (by decide)

end Vue
